import Mathlib

/-!
# GETMe driver and reporting glue: a shallow embedding

The development embeds `Cpp/Examples/Common/Source/reporting.cpp` and
`Cpp/drbGETMe/main.cpp`.  A `std::string` is a list of characters, a
`std::filesystem::path` is its native string (the code converts a path to
`std::string` implicitly, which only compiles where the native format is the
narrow POSIX one, so `/` is the only directory separator and there is no root
name).  A program state holds the file system, the text written to `std::cout`
and, in program order, the calls that leave the embedded code: file access and
the calls into the smoothing engines.
-/

set_option maxRecDepth 4096

namespace Getme

/-! ## Strings -/

/-- A `std::string`, as the list of its characters. -/
abbrev CppString := List Char

/-- Reading of `std::string::find(needle)` from position 0: the least index at
which `needle` occurs in `s`; `none` stands for `std::string::npos`.  The empty
needle is found at index 0. -/
def find : CppString → CppString → Option Nat
  | [], needle => if needle = [] then some 0 else none
  | c :: s, needle =>
    if needle.isPrefixOf (c :: s) then some 0
    else (find s needle).map (· + 1)

/-- Reading of `std::string::erase(index)` with the default count: everything
from `index` on is removed. -/
def erase (s : CppString) (index : Nat) : CppString := s.take index

/-- Reading of `std::string::rfind(ch)`: the greatest index holding `ch`;
`none` stands for `std::string::npos`. -/
def rfind (s : CppString) (ch : Char) : Option Nat :=
  if ch ∈ s then some (s.length - 1 - (s.reverse.takeWhile (· ≠ ch)).length) else none

/-- Decimal rendering of an unsigned integer by `operator<<`. -/
def showNat (n : Nat) : CppString := Nat.toDigits 10 n

/-! ## Paths -/

/-- Reading of `std::filesystem::path::filename()` for the POSIX native format:
what follows the last `/`, the whole string when there is none, empty when the
path ends in `/`. -/
def filename (p : CppString) : CppString :=
  (p.reverse.takeWhile (· ≠ '/')).reverse

/-- The extension of one filename: none for `.` and `..`; otherwise the
substring from the rightmost period on, unless that period is the first
character of the filename. -/
def filenameExtension (f : CppString) : CppString :=
  if f = ['.'] ∨ f = ['.', '.'] then []
  else
    match rfind f '.' with
    | none => []
    | some 0 => []
    | some (pos + 1) => f.drop (pos + 1)

/-- Reading of `std::filesystem::path::extension()`. -/
def extension (p : CppString) : CppString := filenameExtension (filename p)

/-! ## Data model -/

/-- A value of C++ type `double`, up to what the embedded code observes: it is
compared with zero and handed to the stream formatter. -/
inductive Double where
  | nan
  | negInf
  | finite (q : ℚ)
  | posInf
  deriving DecidableEq

/-- The comparison `d < 0` on doubles; false on NaN. -/
def Double.ltZero : Double → Bool
  | .negInf => true
  | .finite q => decide (q < 0)
  | _ => false

/-- The comparison `d >= 0` on doubles; false on NaN. -/
def Double.geZero : Double → Bool
  | .posInf => true
  | .finite q => decide (0 ≤ q)
  | _ => false

/-- Modelled from the spec: `Mathematics::Vector2d` is not in the sources at
hand; section 3 of the spec gives a node a 2D position (x, y). -/
structure Vector2d where
  x : Double
  y : Double
  deriving DecidableEq

/-- Modelled from the spec: `Mesh::Polygon` is not in the sources at hand;
section 3 of the spec makes it an ordered sequence of node indices. -/
structure Polygon where
  nodeIndices : List Nat
  deriving DecidableEq

/-- Reading of `Polygon::getNumberOfNodes`. -/
def Polygon.getNumberOfNodes (polygon : Polygon) : Nat := polygon.nodeIndices.length

/-- Modelled from the spec: `Mesh::PolygonalMesh` is not in the sources at
hand; section 3 of the spec makes it an ordered sequence of nodes, an ordered
sequence of polygons and a set of fixed node indices. -/
structure PolygonalMesh where
  nodes : List Vector2d
  polygons : List Polygon
  fixedNodeIndices : Finset Nat
  deriving DecidableEq

/-- Modelled from the spec: `PolygonalMesh::getMaximalNumberOfPolygonNodes` is
not in the sources at hand; by its name and section 4.4 of the spec it is the
maximum polygon node count present in the mesh. -/
def PolygonalMesh.getMaximalNumberOfPolygonNodes (mesh : PolygonalMesh) : Nat :=
  (mesh.polygons.map Polygon.getNumberOfNodes).foldl max 0

/-- Modelled from the spec: `Mesh::MeshQuality` is not in the sources at hand;
the four getters are the ones `printMeshQuality` calls, with the optional
fields of section 3 of the spec. -/
structure MeshQuality where
  getQMin : Double
  getQMinStar : Option Double
  getQMean : Double
  getNumberOfInvalidElements : Option Nat
  deriving DecidableEq

/-- Modelled from the spec: `Mathematics::BoundingBox` is not in the sources
at hand; it exposes an x- and a y-extent (section 4.1 of the spec). -/
structure BoundingBox where
  getXDimension : Double
  getYDimension : Double
  deriving DecidableEq

/-- The default-constructed `Smoothing::SmartLaplaceConfig` of the driver. -/
structure SmartLaplaceConfig where
  deriving DecidableEq

/-- A `Smoothing::GetmeConfig`, identified by the argument its constructor
received. -/
structure GetmeConfig where
  maxNumberOfPolygonNodes : Nat
  deriving DecidableEq

/-- The fields of `Smoothing::SmoothingResult` (with those of its base) that
the reporting code and the driver read. -/
structure SmoothingResult where
  algorithmName : CppString
  mesh : PolygonalMesh
  meshQuality : MeshQuality
  smoothingWallClockTimeInSeconds : Double
  iterations : Nat
  deriving DecidableEq

/-- The fields of `Smoothing::GetmeResult` (with those of its base) that the
reporting code and the driver read. -/
structure GetmeResult where
  algorithmName : CppString
  mesh : PolygonalMesh
  meshQuality : MeshQuality
  smoothingWallClockTimeInSeconds : Double
  getmeSimultaneousIterations : Nat
  getmeSequentialIterations : Nat
  deriving DecidableEq

/-! ## Program states -/

/-- The floating-point formatting state of `std::cout`: whether `std::fixed`
is set, and the precision. -/
structure FloatFormat where
  fixed : Bool
  precision : Nat
  deriving DecidableEq

/-- A call that leaves the embedded code, in program order. -/
inductive Event where
  | create_directory (p : CppString)
  | readMeshFile (p : CppString)
  | readObjFile (p : CppString)
  | writeMeshFile (mesh : PolygonalMesh) (p : CppString)
  | writeObjFile (mesh : PolygonalMesh) (p : CppString)
  | writeResultMesh (mesh : PolygonalMesh) (initialMeshPath meshName : CppString)
  | smartLaplace (mesh : PolygonalMesh) (config : SmartLaplaceConfig)
  | getme (mesh : PolygonalMesh) (config : GetmeConfig)
  deriving DecidableEq

/-- The state a run acts on: the file system (of a type `σ` left to the
environment), the text written to `std::cout` so far, the formatting state of
`std::cout`, and the calls made so far. -/
structure World (σ : Type) where
  fs : σ
  cout : CppString
  coutFormat : FloatFormat
  trace : List Event

/-- The functions of the repository and of the standard library that the
embedded code calls and whose bodies are not in the sources at hand.  Each may
raise an exception, which is the `Except.error` case; those that write return
the file system they leave behind, whether they raised or not. -/
structure Env (σ : Type) where
  create_directory : CppString → σ → Except CppString Bool × σ
  readMeshFile : CppString → σ → Except CppString PolygonalMesh
  readObjFile : CppString → σ → Except CppString PolygonalMesh
  writeMeshFile : PolygonalMesh → CppString → σ → Except CppString Unit × σ
  writeObjFile : PolygonalMesh → CppString → σ → Except CppString Unit × σ
  smartLaplace : PolygonalMesh → SmartLaplaceConfig → Except CppString SmoothingResult
  getme : PolygonalMesh → GetmeConfig → Except CppString GetmeResult
  meshQuality : PolygonalMesh → Except CppString MeshQuality
  getBoundingBox : List Vector2d → Except CppString BoundingBox
  showDouble : FloatFormat → Double → CppString

/-- A computation of the embedded program: from a state to a value or a raised
exception, and the state reached.  The state reached when an exception is
raised is kept: what was printed and called before it stays so. -/
def Prog (σ α : Type) : Type := World σ → Except CppString α × World σ

/-- Sequencing: the second computation runs only when the first raised
nothing. -/
def Prog.bind {σ α β : Type} (x : Prog σ α) (f : α → Prog σ β) : Prog σ β :=
  fun w =>
    match x w with
    | (.ok a, w1) => f a w1
    | (.error e, w1) => (.error e, w1)

instance {σ : Type} : Monad (Prog σ) where
  pure a := fun w => (.ok a, w)
  bind := Prog.bind

/-- Text sent to `std::cout`. -/
def cout {σ : Type} (text : CppString) : Prog σ Unit :=
  fun w => (.ok (), { w with cout := w.cout ++ text })

/-- Setting `std::fixed` and `std::setprecision(precision)` on `std::cout`. -/
def coutFixed {σ : Type} (precision : Nat) : Prog σ Unit :=
  fun w => (.ok (), { w with coutFormat := ⟨true, precision⟩ })

/-- A double sent to `std::cout`, rendered under the current formatting
state. -/
def coutDouble {σ : Type} (env : Env σ) (d : Double) : Prog σ Unit :=
  fun w => (.ok (), { w with cout := w.cout ++ env.showDouble w.coutFormat d })

/-- Recording of a call. -/
def emit {σ : Type} (e : Event) : Prog σ Unit :=
  fun w => (.ok (), { w with trace := w.trace ++ [e] })

/-- A call that only reads the file system. -/
def readFs {σ α : Type} (f : σ → Except CppString α) : Prog σ α :=
  fun w => (f w.fs, w)

/-- A call that may change the file system, also when it raises. -/
def writeFs {σ α : Type} (f : σ → Except CppString α × σ) : Prog σ α :=
  fun w => ((f w.fs).1, { w with fs := (f w.fs).2 })

/-- A call that touches no state. -/
def call {σ α : Type} (r : Except CppString α) : Prog σ α :=
  fun w => (r, w)

/-- Modelled from the spec: `Utility::throwException` is not in the sources at
hand; by its name and its use as the last statement of a value-returning
function it raises an exception carrying the message. -/
def throwException {σ α : Type} (message : CppString) : Prog σ α :=
  fun w => (.error message, w)

/-- Modelled from the spec: `Utility::throwExceptionIfTrue` is not in the
sources at hand; by its name it raises an exception carrying the message when
the condition is true and does nothing otherwise. -/
def throwExceptionIfTrue {σ : Type} (condition : Bool) (message : CppString) : Prog σ Unit :=
  if condition then throwException message else pure ()

/-! ## reporting.cpp -/

/-- The name printed for a polygon of the given node count (the `switch` of
`printPolygonInformation`). -/
def polygonName (numberOfNodes : Nat) : CppString :=
  match numberOfNodes with
  | 3 => "triangle".toList
  | 4 => "quadrilateral".toList
  | 5 => "pentagon".toList
  | 6 => "hexagon".toList
  | 8 => "octagon".toList
  | 12 => "dodecagon".toList
  | _ => showNat numberOfNodes ++ "-gon".toList

/-- Embedding of `printPolygonInformation`. -/
def printPolygonInformation {σ : Type} (numberOfNodes count : Nat) (isLast : Bool) :
    Prog σ Unit := do
  cout (showNat count ++ " ".toList)
  cout (polygonName numberOfNodes)
  cout ((if count = 1 then [] else "s".toList) ++ (if isLast then [] else ", ".toList))

/-- The statement `numberOfNodesToCount[key].count++` on a
`std::map<std::size_t, ZeroDefaultedCount>`, held as its entries in increasing
key order: a missing key is inserted with count 0 first. -/
def incrementCount : List (Nat × Nat) → Nat → List (Nat × Nat)
  | [], key => [(key, 1)]
  | (k, c) :: rest, key =>
    if key < k then (key, 1) :: (k, c) :: rest
    else if key = k then (k, c + 1) :: rest
    else (k, c) :: incrementCount rest key

/-- The map `numberOfNodesToCount` after the first loop of
`printElementStatistics`. -/
def numberOfNodesToCount (polygons : List Polygon) : List (Nat × Nat) :=
  polygons.foldl (fun m polygon => incrementCount m polygon.getNumberOfNodes) []

/-- The second loop of `printElementStatistics`, over the entries still to
visit; `rbeginFirst` is `numberOfNodesToCount.rbegin()->first`. -/
def printEntries {σ : Type} (rbeginFirst : Option Nat) : List (Nat × Nat) → Prog σ Unit
  | [] => pure ()
  | (numberOfNodes, count) :: rest => do
    let isLastEntry := decide (some numberOfNodes = rbeginFirst)
    printPolygonInformation numberOfNodes count isLastEntry
    printEntries rbeginFirst rest

/-- Embedding of `printElementStatistics`. -/
def printElementStatistics {σ : Type} (mesh : PolygonalMesh) : Prog σ Unit := do
  let polygons := mesh.polygons
  let m := numberOfNodesToCount polygons
  cout "  elements: ".toList
  printEntries (m.getLast?.map Prod.fst) m
  cout "\n".toList

/-- Embedding of `printMeshDimension`. -/
def printMeshDimension {σ : Type} (env : Env σ) (mesh : PolygonalMesh) : Prog σ Unit := do
  let boundingBox ← call (env.getBoundingBox mesh.nodes)
  cout "  x-dimension: ".toList
  coutDouble env boundingBox.getXDimension
  cout ", y-dimension: ".toList
  coutDouble env boundingBox.getYDimension
  cout "\n".toList

/-- Embedding of `printMeshQuality`. -/
def printMeshQuality {σ : Type} (env : Env σ) (meshQuality : MeshQuality)
    (descriptionPrefix : CppString) : Prog σ Unit := do
  let pre := if descriptionPrefix = [] then "M".toList else descriptionPrefix ++ "m".toList
  cout (pre ++ "esh quality: ".toList)
  if meshQuality.getQMin.ltZero then
    match meshQuality.getNumberOfInvalidElements with
    | some n => cout (showNat n ++ " invalid elements\n".toList)
    | none => cout "invalid mesh\n".toList
  else
    coutFixed 4
    cout "qmin=".toList
    coutDouble env meshQuality.getQMin
    match meshQuality.getQMinStar with
    | some qMinStar =>
      cout ", qmin*=".toList
      coutDouble env qMinStar
    | none => pure ()
    cout ", qmean=".toList
    coutDouble env meshQuality.getQMean
    cout "\n".toList

/-- Embedding of `printSmoothingResultBase`, on the fields of the base. -/
def printSmoothingResultBase {σ : Type} (env : Env σ) (algorithmName : CppString)
    (meshQuality : MeshQuality) (smoothingWallClockTimeInSeconds : Double) : Prog σ Unit := do
  cout (algorithmName ++ " smoothing result\n".toList)
  printMeshQuality env meshQuality "  ".toList
  cout "  smoothing time: ".toList
  coutFixed 3
  coutDouble env smoothingWallClockTimeInSeconds
  cout "s\n".toList

/-- Embedding of `Common::printInitialMeshInformation`. -/
def printInitialMeshInformation {σ : Type} (env : Env σ) (mesh : PolygonalMesh) :
    Prog σ Unit := do
  cout ("Initial mesh consist of ".toList ++ showNat mesh.nodes.length ++ " nodes (".toList
    ++ showNat mesh.fixedNodeIndices.card ++ " fixed) and ".toList
    ++ showNat mesh.polygons.length ++ " polygons.\n".toList)
  printElementStatistics mesh
  printMeshDimension env mesh
  let meshQuality ← call (env.meshQuality mesh)
  printMeshQuality env meshQuality "  ".toList

/-- Embedding of `Common::printSmoothingResult(const SmoothingResult&)`. -/
def printSmoothingResult {σ : Type} (env : Env σ) (result : SmoothingResult) : Prog σ Unit := do
  printSmoothingResultBase env result.algorithmName result.meshQuality
    result.smoothingWallClockTimeInSeconds
  cout ("  iterations: ".toList ++ showNat result.iterations ++ "\n".toList)

/-- Embedding of `Common::printSmoothingResult(const GetmeResult&)`. -/
def printGetmeResult {σ : Type} (env : Env σ) (result : GetmeResult) : Prog σ Unit := do
  printSmoothingResultBase env result.algorithmName result.meshQuality
    result.smoothingWallClockTimeInSeconds
  cout ("  iterations: ".toList ++ showNat result.getmeSimultaneousIterations ++ "/".toList
    ++ showNat result.getmeSequentialIterations ++ "\n".toList)

/-- Embedding of `Common::writeResultMesh`.  The call itself is recorded on
entry. -/
def writeResultMesh {σ : Type} (env : Env σ) (mesh : PolygonalMesh)
    (initialMeshPath meshName : CppString) : Prog σ Unit := do
  emit (.writeResultMesh mesh initialMeshPath meshName)
  let pathString := initialMeshPath
  let fExt := extension initialMeshPath
  let index := find pathString fExt
  throwExceptionIfTrue (decide (none = index)) "File has an unexpected file extension.".toList
  let pathString := erase pathString (index.getD 0) ++ "_".toList ++ meshName ++ fExt
  cout ("Writing result mesh file ".toList ++ pathString ++ "\n".toList)
  if fExt = ".mesh".toList then
    emit (.writeMeshFile mesh pathString)
    writeFs (env.writeMeshFile mesh pathString)
  else if fExt = ".obj".toList then
    emit (.writeObjFile mesh pathString)
    writeFs (env.writeObjFile mesh pathString)
  else
    pure ()

/-- Embedding of `Common::readInitialMesh`. -/
def readInitialMesh {σ : Type} (env : Env σ) (initialMeshPath : CppString) :
    Prog σ PolygonalMesh := do
  let fExt := extension initialMeshPath
  let _index := find initialMeshPath fExt
  if fExt = ".mesh".toList then
    emit (.readMeshFile initialMeshPath)
    readFs (env.readMeshFile initialMeshPath)
  else if fExt = ".obj".toList then
    emit (.readObjFile initialMeshPath)
    readFs (env.readObjFile initialMeshPath)
  else
    throwException "Unexpected file extension.".toList

/-! ## main.cpp -/

/-- The value of `inputBaseName` when the driver builds the output path. -/
def inputBaseName (inputFilePath : CppString) : CppString :=
  let filePath := inputFilePath
  let inputBaseName := filename filePath
  match find inputBaseName "_initial".toList with
  | some index => erase inputBaseName index ++ extension filePath
  | none => inputBaseName

/-- The value of `ouputFilePath` in the driver. -/
def ouputFilePath (inputFilePath : CppString) : CppString :=
  let outputDir := "res".toList
  outputDir ++ "/".toList ++ inputBaseName inputFilePath

/-- Embedding of `main`; `argv` holds the `argc` arguments, the program name
first.  The value is the exit status; an exception that leaves `main` ends the
run. -/
def main {σ : Type} (env : Env σ) (argv : List CppString) : Prog σ Int :=
  match argv with
  | _ :: inputFilePath :: _ => do
    cout ("In File: ".toList ++ inputFilePath ++ "\n".toList)
    let outputDir := "res".toList
    emit (.create_directory outputDir)
    let _ ← writeFs (env.create_directory outputDir)
    let ouputFilePath := ouputFilePath inputFilePath
    -- Read inital mesh and report quality.
    let initialMesh ← readInitialMesh env inputFilePath
    printInitialMeshInformation env initialMesh
    writeResultMesh env initialMesh ouputFilePath "initial".toList
    -- Set algorithm parameters.
    let smartLaplaceConfig : SmartLaplaceConfig := {}
    let getmeConfig : GetmeConfig := ⟨initialMesh.getMaximalNumberOfPolygonNodes⟩
    -- Smooth mesh using smart Laplace.
    emit (.smartLaplace initialMesh smartLaplaceConfig)
    let smartLaplaceResult ← call (env.smartLaplace initialMesh smartLaplaceConfig)
    printSmoothingResult env smartLaplaceResult
    writeResultMesh env smartLaplaceResult.mesh ouputFilePath "smart_laplace".toList
    -- Smooth mesh using GETMe.
    emit (.getme initialMesh getmeConfig)
    let getmeResult ← call (env.getme initialMesh getmeConfig)
    printGetmeResult env getmeResult
    writeResultMesh env getmeResult.mesh ouputFilePath "getme".toList
    return 0
  | _ => do
    cout "Please specify an input mesh.\n".toList
    return 0

/-! ## A sample environment

An in-memory file system on which the embedding can be evaluated. -/

/-- The two file formats of the mesh readers and writers. -/
inductive FileFormat where
  | mesh
  | obj
  deriving DecidableEq

/-- A stored file: its path, its format and the mesh it encodes. -/
structure StoredFile where
  path : CppString
  format : FileFormat
  content : PolygonalMesh
  deriving DecidableEq

/-- Reading the most recently written file at a path, in a given format. -/
def readStored (format : FileFormat) (p : CppString) (files : List StoredFile) :
    Except CppString PolygonalMesh :=
  match files.find? (fun f => decide (f.path = p)) with
  | some f => if f.format = format then .ok f.content else .error "Malformed file.".toList
  | none => .error "Cannot open file.".toList

/-- The quality record the sample environment reports for every mesh. -/
def sampleQuality : MeshQuality := ⟨.finite 1, none, .finite 1, none⟩

/-- An environment over an in-memory file system; its engines return the mesh
they are given. -/
def sampleEnv : Env (List StoredFile) where
  create_directory _ files := (.ok true, files)
  readMeshFile := readStored .mesh
  readObjFile := readStored .obj
  writeMeshFile mesh p files := (.ok (), ⟨p, .mesh, mesh⟩ :: files)
  writeObjFile mesh p files := (.ok (), ⟨p, .obj, mesh⟩ :: files)
  smartLaplace mesh _ := .ok ⟨"Smart Laplace".toList, mesh, sampleQuality, .finite 0, 0⟩
  getme mesh _ := .ok ⟨"GETMe".toList, mesh, sampleQuality, .finite 0, 0, 0⟩
  meshQuality _ := .ok sampleQuality
  getBoundingBox _ := .ok ⟨.finite 1, .finite 1⟩
  showDouble _ _ := "1".toList

/-- A mesh of one triangle. -/
def sampleMesh : PolygonalMesh :=
  ⟨[⟨.finite 0, .finite 0⟩, ⟨.finite 1, .finite 0⟩, ⟨.finite 0, .finite 1⟩], [⟨[0, 1, 2]⟩], ∅⟩

/-- The state at program start over a given file system. -/
def initialWorld {σ : Type} (fs : σ) : World σ := ⟨fs, [], ⟨false, 6⟩, []⟩

/-! ## Definitions that state the properties -/

/-- The output path as the description of `writeResultMesh` words it: the path
without its extension, then `_`, the mesh name and the extension. -/
def insertBeforeExtension (p meshName : CppString) : CppString :=
  p.take (p.length - (extension p).length) ++ "_".toList ++ meshName ++ extension p

/-- The label that opens the quality line. -/
def qualityLabel (descriptionPrefix : CppString) : CppString :=
  (if descriptionPrefix = [] then "M".toList else descriptionPrefix ++ "m".toList)
    ++ "esh quality: ".toList

/-- The text of one entry of the element statistics, without separator. -/
def entryText (entry : Nat × Nat) : CppString :=
  showNat entry.2 ++ " ".toList ++ polygonName entry.1
    ++ (if entry.2 = 1 then [] else "s".toList)

/-- The total count a map holds for a key. -/
def countOf (m : List (Nat × Nat)) (n : Nat) : Nat :=
  ((m.filter (fun e => decide (e.1 = n))).map Prod.snd).sum

/-- The text the second loop of `printElementStatistics` prints. -/
def entriesText (rbeginFirst : Option Nat) : List (Nat × Nat) → CppString
  | [] => []
  | e :: rest =>
    entryText e ++ (if some e.1 = rbeginFirst then [] else ", ".toList)
      ++ entriesText rbeginFirst rest

/-- A mesh of two triangles and a quadrilateral between them. -/
def sampleMixedMesh : PolygonalMesh :=
  ⟨[], [⟨[0, 1, 2]⟩, ⟨[1, 3, 4, 2]⟩, ⟨[3, 5, 4]⟩], ∅⟩

/-- Running `x` from `w` extends the trace by some list of calls which, with
the result and the file system reached, satisfies `Q`. -/
def Adds {σ α : Type} (x : Prog σ α) (w : World σ)
    (Q : Except CppString α → σ → List Event → Prop) : Prop :=
  ∃ evs, (x w).2.trace = w.trace ++ evs ∧ Q (x w).1 (x w).2.fs evs

/-- A computation that makes no call and leaves the file system alone. -/
def Quiet {σ α : Type} (x : Prog σ α) : Prop :=
  ∀ w, (x w).2.trace = w.trace ∧ (x w).2.fs = w.fs

/-- The path `writeResultMesh` builds for its output (the final value of its
`pathString`). -/
def resultMeshPath (initialMeshPath meshName : CppString) : CppString :=
  erase initialMeshPath ((find initialMeshPath (extension initialMeshPath)).getD 0)
    ++ "_".toList ++ meshName ++ extension initialMeshPath

/-- The reader call `readInitialMesh` makes, if any. -/
def readEvents (initialMeshPath : CppString) : List Event :=
  if extension initialMeshPath = ".mesh".toList then [.readMeshFile initialMeshPath]
  else if extension initialMeshPath = ".obj".toList then [.readObjFile initialMeshPath]
  else []

/-- The writer call `writeResultMesh` makes, if any. -/
def writeEvents (mesh : PolygonalMesh) (initialMeshPath meshName : CppString) : List Event :=
  if extension initialMeshPath = ".mesh".toList then
    [.writeMeshFile mesh (resultMeshPath initialMeshPath meshName)]
  else if extension initialMeshPath = ".obj".toList then
    [.writeObjFile mesh (resultMeshPath initialMeshPath meshName)]
  else []

/-- The result of `readInitialMesh` in the driver: it runs on the file system
that `create_directory` leaves. -/
def initialMeshResult {σ : Type} (env : Env σ) (inputFilePath : CppString) (fs : σ) :
    Except CppString PolygonalMesh :=
  (readInitialMesh env inputFilePath
    (initialWorld (env.create_directory "res".toList fs).2)).1

/-- What a call found in the trace of the driver must look like: an engine is
called on the mesh `readInitialMesh` returned, GETMe with the configuration
built from that mesh, and `writeResultMesh` is called with the path
`ouputFilePath` and, under each of the three names, with the initial mesh, the
mesh of the smart Laplace result and the mesh of the GETMe result. -/
def CallOk {σ : Type} (env : Env σ) (inputFilePath : CppString) (fs : σ) : Event → Prop
  | .smartLaplace mesh _ => initialMeshResult env inputFilePath fs = .ok mesh
  | .getme mesh config =>
    initialMeshResult env inputFilePath fs = .ok mesh
      ∧ config = ⟨mesh.getMaximalNumberOfPolygonNodes⟩
  | .writeResultMesh mesh p meshName =>
    p = ouputFilePath inputFilePath ∧
      ((meshName = "initial".toList ∧ initialMeshResult env inputFilePath fs = .ok mesh) ∨
       (meshName = "smart_laplace".toList ∧ ∃ initialMesh result,
          initialMeshResult env inputFilePath fs = .ok initialMesh
            ∧ env.smartLaplace initialMesh {} = .ok result ∧ mesh = result.mesh) ∨
       (meshName = "getme".toList ∧ ∃ initialMesh result,
          initialMeshResult env inputFilePath fs = .ok initialMesh
            ∧ env.getme initialMesh ⟨initialMesh.getMaximalNumberOfPolygonNodes⟩ = .ok result
            ∧ mesh = result.mesh))
  | _ => True

/-- The calls of a run of the driver that reaches `return 0`. -/
def completeTrace (inputFilePath : CppString) (initialMesh : PolygonalMesh)
    (smartLaplaceResult : SmoothingResult) (getmeResult : GetmeResult) : List Event :=
  [.create_directory "res".toList] ++ readEvents inputFilePath
    ++ (.writeResultMesh initialMesh (ouputFilePath inputFilePath) "initial".toList
      :: writeEvents initialMesh (ouputFilePath inputFilePath) "initial".toList)
    ++ [.smartLaplace initialMesh {}]
    ++ (.writeResultMesh smartLaplaceResult.mesh (ouputFilePath inputFilePath)
        "smart_laplace".toList
      :: writeEvents smartLaplaceResult.mesh (ouputFilePath inputFilePath)
        "smart_laplace".toList)
    ++ [.getme initialMesh ⟨initialMesh.getMaximalNumberOfPolygonNodes⟩]
    ++ (.writeResultMesh getmeResult.mesh (ouputFilePath inputFilePath) "getme".toList
      :: writeEvents getmeResult.mesh (ouputFilePath inputFilePath) "getme".toList)

/-- The pairs of path and mesh name with which `writeResultMesh` was called,
in order. -/
def writeResultMeshCalls (trace : List Event) : List (CppString × CppString) :=
  trace.filterMap fun
    | .writeResultMesh _ p meshName => some (p, meshName)
    | _ => none

/-- A file system holding the one-triangle mesh as `bunny_initial.obj`. -/
def sampleFiles : List StoredFile := [⟨"in/bunny_initial.obj".toList, .obj, sampleMesh⟩]

/-- The sample environment with a `create_directory` that raises. -/
def failingDirectoryEnv : Env (List StoredFile) :=
  { sampleEnv with
    create_directory := fun _ files => (.error "Cannot create directory.".toList, files) }

/-- The one-triangle mesh with its third node moved: what the smart Laplace
engine of `movingEnv` returns. -/
def laplaceMesh : PolygonalMesh :=
  ⟨[⟨.finite 0, .finite 0⟩, ⟨.finite 1, .finite 0⟩, ⟨.finite 1, .finite 1⟩], [⟨[0, 1, 2]⟩], ∅⟩

/-- The one-triangle mesh with its third node moved elsewhere: what the GETMe
engine of `movingEnv` returns. -/
def getmeMesh : PolygonalMesh :=
  ⟨[⟨.finite 0, .finite 0⟩, ⟨.finite 1, .finite 0⟩, ⟨.finite 2, .finite 2⟩], [⟨[0, 1, 2]⟩], ∅⟩

/-- The sample environment with engines that move a node, each to a different
place, so that the initial mesh, the smart Laplace result and the GETMe result
are three different meshes. -/
def movingEnv : Env (List StoredFile) :=
  { sampleEnv with
    smartLaplace := fun _ _ =>
      .ok ⟨"Smart Laplace".toList, laplaceMesh, sampleQuality, .finite 0, 1⟩
    getme := fun _ _ => .ok ⟨"GETMe".toList, getmeMesh, sampleQuality, .finite 0, 1, 1⟩ }

/-- Modelled from the spec: `Mesh::writeMeshFile`, `Mesh::readMeshFile`,
`Mesh::writeObjFile` and `Mesh::readObjFile` are not in the sources at hand;
section 8 of the spec states their round trip, "writing a mesh then reading it
back yields identical node positions and polygon connectivity", here for each
format, on the file system a writer leaves when it raised nothing. -/
def RoundTrip {σ : Type} (env : Env σ) : Prop :=
  (∀ mesh p fs, (env.writeMeshFile mesh p fs).1 = .ok () →
    ∃ readBack, env.readMeshFile p (env.writeMeshFile mesh p fs).2 = .ok readBack
      ∧ readBack.nodes = mesh.nodes ∧ readBack.polygons = mesh.polygons) ∧
  (∀ mesh p fs, (env.writeObjFile mesh p fs).1 = .ok () →
    ∃ readBack, env.readObjFile p (env.writeObjFile mesh p fs).2 = .ok readBack
      ∧ readBack.nodes = mesh.nodes ∧ readBack.polygons = mesh.polygons)

/-! # Theorems -/

/-! ## Lemmas on the program monad -/

@[simp] theorem Prog.bind_apply {σ α β : Type} (x : Prog σ α) (f : α → Prog σ β)
    (w : World σ) :
    (x >>= f) w = match x w with
      | (.ok a, w1) => f a w1
      | (.error e, w1) => (.error e, w1) := rfl

@[simp] theorem Prog.pure_apply {σ α : Type} (a : α) (w : World σ) :
    (pure a : Prog σ α) w = (.ok a, w) := rfl

/-! ## Lemmas on strings and paths -/

/-- The path functions on sample paths, as documented for
`std::filesystem::path` and `std::string::find`. -/
theorem path_samples :
    extension "a/b.c/foo.obj".toList = ".obj".toList ∧
    extension "a/b.c/".toList = [] ∧
    extension "a/b.c/.obj".toList = [] ∧
    extension "a/b.c/..obj".toList = ".obj".toList ∧
    extension "x.tar.gz".toList = ".gz".toList ∧
    extension "x.".toList = ".".toList ∧
    extension "..".toList = [] ∧
    extension "foo".toList = [] ∧
    extension "foo.OBJ".toList = ".OBJ".toList ∧
    filename "/".toList = [] ∧
    filename "a/b.c/foo.obj".toList = "foo.obj".toList ∧
    find "abcabc".toList "ca".toList = some 2 ∧
    find "abcabc".toList [] = some 0 ∧
    find [] [] = some 0 ∧
    find "abcabc".toList "cb".toList = none := by
  decide

theorem find_eq_none_iff (s needle : CppString) :
    find s needle = none ↔ ¬ needle <:+: s := by
  induction s with
  | nil =>
    by_cases h : needle = [] <;> simp [find, h]
  | cons c s ih =>
    by_cases hp : needle.isPrefixOf (c :: s) = true
    · have hpre : needle <+: c :: s := List.isPrefixOf_iff_prefix.mp hp
      simp [find, hp, hpre.isInfix]
    · have hpre : ¬ needle <+: c :: s := fun h => hp (List.isPrefixOf_iff_prefix.mpr h)
      rw [find, if_neg hp, List.infix_cons_iff, Option.map_eq_none']
      simpa [hpre] using ih

theorem find_eq_some {s needle : CppString} {i : Nat} (h : find s needle = some i) :
    needle <+: s.drop i ∧ i ≤ s.length ∧ ∀ j, j < i → ¬ needle <+: s.drop j := by
  induction s generalizing i with
  | nil =>
    by_cases hn : needle = []
    · simp [find, hn] at h
      subst h
      simp [hn]
    · simp [find, hn] at h
  | cons c s ih =>
    by_cases hp : needle.isPrefixOf (c :: s) = true
    · have hpre : needle <+: c :: s := List.isPrefixOf_iff_prefix.mp hp
      simp [find, hp] at h
      subst h
      simpa using hpre
    · have hpre : ¬ needle <+: c :: s := fun h => hp (List.isPrefixOf_iff_prefix.mpr h)
      rw [find, if_neg hp, Option.map_eq_some'] at h
      obtain ⟨k, hk, rfl⟩ := h
      obtain ⟨h1, h2, h3⟩ := ih hk
      refine ⟨by simpa using h1, by simpa using h2, fun j hj => ?_⟩
      cases j with
      | zero => simpa using hpre
      | succ j => simpa using h3 j (by omega)

theorem find_take_append {s needle : CppString} {i : Nat} (h : find s needle = some i) :
    s = s.take i ++ needle ++ s.drop (i + needle.length) := by
  obtain ⟨⟨t, ht⟩, -, -⟩ := find_eq_some h
  have h1 : s = s.take i ++ (needle ++ t) := by rw [ht, List.take_append_drop]
  have h2 : s.drop (i + needle.length) = t := by
    rw [← List.drop_drop, ← ht, List.drop_left]
  rw [h2, List.append_assoc]
  exact h1

theorem rfind_append (a r : CppString) (ch : Char) (h : ch ∉ r) :
    rfind (a ++ ch :: r) ch = some a.length := by
  have htw : List.takeWhile (fun x => decide (x ≠ ch)) (r.reverse ++ ch :: a.reverse)
      = r.reverse := by
    rw [List.takeWhile_append_of_pos]
    · simp
    · intro x hx
      have : x ≠ ch := fun e => h (e ▸ List.mem_reverse.mp hx)
      simpa using this
  simp only [rfind, List.mem_append, List.mem_cons, true_or, or_true, if_true,
    List.reverse_append, List.reverse_cons, List.append_assoc, List.singleton_append, htw,
    List.length_append, List.length_cons, List.length_reverse, Option.some.injEq]
  omega

theorem filename_append (x f : CppString) (h : '/' ∉ f) :
    filename (x ++ f) = filename x ++ f := by
  unfold filename
  rw [List.reverse_append, List.takeWhile_append_of_pos, List.reverse_append, List.reverse_reverse]
  intro c hc
  have : c ≠ '/' := fun e => h (e ▸ List.mem_reverse.mp hc)
  simpa using this

theorem filename_isSuffix (p : CppString) : filename p <:+ p := by
  unfold filename
  have h := List.takeWhile_prefix (l := p.reverse) (fun x => decide (x ≠ '/'))
  simpa using List.reverse_suffix.mpr h

theorem filenameExtension_isSuffix (f : CppString) : filenameExtension f <:+ f := by
  unfold filenameExtension
  split
  · exact List.nil_suffix
  · split
    · exact List.nil_suffix
    · exact List.nil_suffix
    · exact List.drop_suffix _ _

theorem extension_isSuffix (p : CppString) : extension p <:+ p :=
  (filenameExtension_isSuffix _).trans (filename_isSuffix p)

/-- The search in `writeResultMesh` and `readInitialMesh` always succeeds: the
extension of a path occurs in the path. -/
theorem find_extension_ne_none (p : CppString) : find p (extension p) ≠ none := by
  rw [Ne, find_eq_none_iff, not_not]
  exact (extension_isSuffix p).isInfix

/-- A path that ends in a character other than `/` followed by a period and a
period-free, slash-free, non-empty rest has that period and rest as its
extension. -/
theorem extension_append (x r : CppString) (c : Char) (hc : c ≠ '/')
    (hdot : '.' ∉ r) (hslash : '/' ∉ r) (hr : r ≠ []) :
    extension (x ++ c :: '.' :: r) = '.' :: r := by
  have hmem : '/' ∉ c :: '.' :: r := by
    simp only [List.mem_cons, not_or]
    exact ⟨fun e => hc e.symm, by decide, hslash⟩
  have hlen : 0 < r.length := List.length_pos.mpr hr
  unfold extension
  rw [filename_append x _ hmem]
  unfold filenameExtension
  have hrf : rfind (filename x ++ c :: '.' :: r) '.' = some ((filename x).length + 1) := by
    have := rfind_append (filename x ++ [c]) r '.' hdot
    simpa using this
  have h1 : filename x ++ c :: '.' :: r ≠ ['.'] := by
    intro e
    have := congrArg List.length e
    simp at this
    omega
  have h2 : filename x ++ c :: '.' :: r ≠ ['.', '.'] := by
    intro e
    have := congrArg List.length e
    simp at this
    omega
  rw [if_neg (by simp [h1, h2]), hrf]
  simp

/-! ## Reading the initial mesh -/

/-- The three outcomes of `readInitialMesh`, by the extension of the path. -/
theorem readInitialMesh_apply {σ : Type} (env : Env σ) (p : CppString) (w : World σ) :
    readInitialMesh env p w =
      if extension p = ".mesh".toList then
        (env.readMeshFile p w.fs, { w with trace := w.trace ++ [.readMeshFile p] })
      else if extension p = ".obj".toList then
        (env.readObjFile p w.fs, { w with trace := w.trace ++ [.readObjFile p] })
      else (.error "Unexpected file extension.".toList, w) := by
  unfold readInitialMesh
  split_ifs <;> rfl

/-- C1: `readInitialMesh` returns what `readMeshFile` returns on the path when
the extension is exactly `.mesh`, what `readObjFile` returns when it is exactly
`.obj`, and otherwise raises "Unexpected file extension." without calling a
reader. -/
theorem readInitialMesh_dispatch {σ : Type} (env : Env σ) (p : CppString) (w : World σ) :
    (extension p = ".mesh".toList →
      readInitialMesh env p w
        = (env.readMeshFile p w.fs, { w with trace := w.trace ++ [.readMeshFile p] })) ∧
    (extension p = ".obj".toList →
      readInitialMesh env p w
        = (env.readObjFile p w.fs, { w with trace := w.trace ++ [.readObjFile p] })) ∧
    (extension p ≠ ".mesh".toList → extension p ≠ ".obj".toList →
      readInitialMesh env p w = (.error "Unexpected file extension.".toList, w)) := by
  rw [readInitialMesh_apply]
  refine ⟨fun h => ?_, fun h => ?_, fun h1 h2 => ?_⟩
  · rw [if_pos h]
  · have hne : extension p ≠ ".mesh".toList := by rw [h]; decide
    rw [if_neg hne, if_pos h]
  · rw [if_neg h1, if_neg h2]

/-- C1, at concrete paths: `a.mesh` goes to the `.mesh` reader, `a.obj` to the
`.obj` reader, and `a.OBJ` and `a` to the error. -/
theorem readInitialMesh_dispatch_witness :
    readInitialMesh sampleEnv "a.mesh".toList (initialWorld [⟨"a.mesh".toList, .mesh, sampleMesh⟩])
      = (sampleEnv.readMeshFile "a.mesh".toList [⟨"a.mesh".toList, .mesh, sampleMesh⟩],
          { initialWorld [⟨"a.mesh".toList, .mesh, sampleMesh⟩] with
            trace := [] ++ [Event.readMeshFile "a.mesh".toList] }) ∧
    readInitialMesh sampleEnv "a.obj".toList (initialWorld [⟨"a.obj".toList, .obj, sampleMesh⟩])
      = (sampleEnv.readObjFile "a.obj".toList [⟨"a.obj".toList, .obj, sampleMesh⟩],
          { initialWorld [⟨"a.obj".toList, .obj, sampleMesh⟩] with
            trace := [] ++ [Event.readObjFile "a.obj".toList] }) ∧
    readInitialMesh sampleEnv "a.OBJ".toList (initialWorld [⟨"a.OBJ".toList, .obj, sampleMesh⟩])
      = (.error "Unexpected file extension.".toList,
          initialWorld [⟨"a.OBJ".toList, .obj, sampleMesh⟩]) ∧
    readInitialMesh sampleEnv "a".toList (initialWorld [])
      = (.error "Unexpected file extension.".toList, initialWorld []) :=
  ⟨(readInitialMesh_dispatch sampleEnv _ _).1 (by decide),
   (readInitialMesh_dispatch sampleEnv _ _).2.1 (by decide),
   (readInitialMesh_dispatch sampleEnv _ _).2.2 (by decide) (by decide),
   (readInitialMesh_dispatch sampleEnv _ _).2.2 (by decide) (by decide)⟩

/-! ## Writing a result mesh -/

/-- C2, at the path `res/grid.txt`: `writeResultMesh` raises nothing; it prints
the name of a file, calls no writer, leaves the file system as it was and
returns normally. -/
theorem writeResultMesh_unrecognized_returns {σ : Type} (env : Env σ) (mesh : PolygonalMesh)
    (w : World σ) :
    writeResultMesh env mesh "res/grid.txt".toList "initial".toList w
      = (.ok (),
          { w with
            cout := w.cout ++ "Writing result mesh file res/grid_initial.txt\n".toList
            trace := w.trace
              ++ [Event.writeResultMesh mesh "res/grid.txt".toList "initial".toList] }) := by
  rfl

/-- C9, at the path `res/wing.meshes.mesh`: the file is written to
`res/wing_getme.mesh`, the path cut at the first occurrence of `.mesh`, while
inserting the name before the extension gives `res/wing.meshes_getme.mesh`. -/
theorem writeResultMesh_cuts_at_first_occurrence {σ : Type} (env : Env σ)
    (mesh : PolygonalMesh) (w : World σ) :
    writeResultMesh env mesh "res/wing.meshes.mesh".toList "getme".toList w
      = ((env.writeMeshFile mesh "res/wing_getme.mesh".toList w.fs).1,
          { fs := (env.writeMeshFile mesh "res/wing_getme.mesh".toList w.fs).2
            cout := w.cout ++ "Writing result mesh file res/wing_getme.mesh\n".toList
            coutFormat := w.coutFormat
            trace := w.trace
              ++ [Event.writeResultMesh mesh "res/wing.meshes.mesh".toList "getme".toList]
              ++ [Event.writeMeshFile mesh "res/wing_getme.mesh".toList] }) ∧
    insertBeforeExtension "res/wing.meshes.mesh".toList "getme".toList
      = "res/wing.meshes_getme.mesh".toList ∧
    "res/wing_getme.mesh".toList ≠ "res/wing.meshes_getme.mesh".toList := by
  refine ⟨rfl, by decide, by decide⟩

/-- For no path does `writeResultMesh` raise "File has an unexpected file
extension.": when the extension is neither `.mesh` nor `.obj` it returns
normally without calling a writer. -/
theorem writeResultMesh_of_unrecognized {σ : Type} (env : Env σ) (mesh : PolygonalMesh)
    (p meshName : CppString) (w : World σ)
    (h1 : extension p ≠ ".mesh".toList) (h2 : extension p ≠ ".obj".toList) :
    (writeResultMesh env mesh p meshName w).1 = .ok () ∧
    (writeResultMesh env mesh p meshName w).2.fs = w.fs ∧
    (writeResultMesh env mesh p meshName w).2.trace
      = w.trace ++ [Event.writeResultMesh mesh p meshName] := by
  have hf := find_extension_ne_none p
  unfold writeResultMesh
  simp only [if_neg h1, if_neg h2]
  cases hfe : find p (extension p) with
  | none => exact absurd hfe hf
  | some i => simp [throwExceptionIfTrue, emit, cout]

/-! ## The driver -/

/-- C3, amended: on an input path whose extension is neither `.mesh` nor `.obj`
the run ends in an exception and the only call made is `create_directory`, so
neither engine is invoked and no mesh writer is called; the exception is the
one of `readInitialMesh` whenever the `create_directory` call before it raised
nothing, and the one `create_directory` raised otherwise. -/
theorem main_aborts_before_smoothing {σ : Type} (env : Env σ) (prog inputFilePath : CppString)
    (rest : List CppString) (w : World σ)
    (h1 : extension inputFilePath ≠ ".mesh".toList)
    (h2 : extension inputFilePath ≠ ".obj".toList) :
    (main env (prog :: inputFilePath :: rest) w).2.trace
      = w.trace ++ [Event.create_directory "res".toList] ∧
    (∀ created, (env.create_directory "res".toList w.fs).1 = .ok created →
      (main env (prog :: inputFilePath :: rest) w).1
        = .error "Unexpected file extension.".toList) ∧
    (∀ e, (env.create_directory "res".toList w.fs).1 = .error e →
      (main env (prog :: inputFilePath :: rest) w).1 = .error e) := by
  have hread : ∀ w1 : World σ, readInitialMesh env inputFilePath w1
      = (.error "Unexpected file extension.".toList, w1) := fun w1 => by
    rw [readInitialMesh_apply, if_neg h1, if_neg h2]
  unfold main
  simp only [Prog.bind_apply, cout, emit, writeFs]
  cases hc : (env.create_directory "res".toList w.fs).1 with
  | error e => simp
  | ok created => simp [hread]

/-! ## The quality line -/

theorem Double.not_ltZero_of_geZero (d : Double) (h : d.geZero = true) : d.ltZero = false := by
  cases d with
  | finite q =>
    simp only [Double.geZero, decide_eq_true_eq] at h
    simp only [Double.ltZero, decide_eq_false_iff_not, not_lt]
    exact h
  | nan => rfl
  | negInf => simp [Double.geZero] at h
  | posInf => rfl

/-- C7: `printMeshQuality` raises nothing and prints, after the label, one of
four lines.  With `qmin < 0`: the invalid-element count and " invalid elements"
when the count is present, "invalid mesh" when it is absent, and no quality
figure.  Otherwise, so in particular with `qmin >= 0`: "qmin=" and the figure,
then ", qmin*=" and its figure exactly when `qmin*` is present, then ", qmean="
and the figure, and no invalid-element count. -/
theorem printMeshQuality_line {σ : Type} (env : Env σ) (meshQuality : MeshQuality)
    (descriptionPrefix : CppString) (w : World σ) :
    (printMeshQuality env meshQuality descriptionPrefix w).1 = .ok () ∧
    (meshQuality.getQMin.ltZero = true → ∀ n, meshQuality.getNumberOfInvalidElements = some n →
      (printMeshQuality env meshQuality descriptionPrefix w).2.cout
        = w.cout ++ qualityLabel descriptionPrefix ++ showNat n
          ++ " invalid elements\n".toList) ∧
    (meshQuality.getQMin.ltZero = true → meshQuality.getNumberOfInvalidElements = none →
      (printMeshQuality env meshQuality descriptionPrefix w).2.cout
        = w.cout ++ qualityLabel descriptionPrefix ++ "invalid mesh\n".toList) ∧
    (meshQuality.getQMin.geZero = true → meshQuality.getQMin.ltZero = false) ∧
    (meshQuality.getQMin.ltZero = false → ∀ qMinStar, meshQuality.getQMinStar = some qMinStar →
      (printMeshQuality env meshQuality descriptionPrefix w).2.cout
        = w.cout ++ qualityLabel descriptionPrefix
          ++ "qmin=".toList ++ env.showDouble ⟨true, 4⟩ meshQuality.getQMin
          ++ ", qmin*=".toList ++ env.showDouble ⟨true, 4⟩ qMinStar
          ++ ", qmean=".toList ++ env.showDouble ⟨true, 4⟩ meshQuality.getQMean
          ++ "\n".toList) ∧
    (meshQuality.getQMin.ltZero = false → meshQuality.getQMinStar = none →
      (printMeshQuality env meshQuality descriptionPrefix w).2.cout
        = w.cout ++ qualityLabel descriptionPrefix
          ++ "qmin=".toList ++ env.showDouble ⟨true, 4⟩ meshQuality.getQMin
          ++ ", qmean=".toList ++ env.showDouble ⟨true, 4⟩ meshQuality.getQMean
          ++ "\n".toList) := by
  refine ⟨?_, fun hlt n hn => ?_, fun hlt hn => ?_, Double.not_ltZero_of_geZero _,
    fun hlt q hq => ?_, fun hlt hq => ?_⟩
  · unfold printMeshQuality
    cases meshQuality.getQMin.ltZero <;> cases meshQuality.getNumberOfInvalidElements <;>
      cases meshQuality.getQMinStar <;> rfl
  · simp [printMeshQuality, qualityLabel, hlt, hn, cout]
  · simp [printMeshQuality, qualityLabel, hlt, hn, cout]
  · simp [printMeshQuality, qualityLabel, hlt, hq, cout, coutFixed, coutDouble]
  · simp [printMeshQuality, qualityLabel, hlt, hq, cout, coutFixed, coutDouble]

/-- C7, at four quality records, one for each line. -/
theorem printMeshQuality_line_witness :
    (printMeshQuality sampleEnv ⟨.finite (-1), none, .finite 0, some 2⟩ "  ".toList
        (initialWorld [])).2.cout
      = (initialWorld ([] : List StoredFile)).cout ++ qualityLabel "  ".toList ++ showNat 2
        ++ " invalid elements\n".toList ∧
    (printMeshQuality sampleEnv ⟨.negInf, none, .finite 0, none⟩ [] (initialWorld [])).2.cout
      = (initialWorld ([] : List StoredFile)).cout ++ qualityLabel []
        ++ "invalid mesh\n".toList ∧
    (printMeshQuality sampleEnv ⟨.finite 0, some (.finite 1), .finite 1, none⟩ []
        (initialWorld [])).2.cout
      = (initialWorld ([] : List StoredFile)).cout ++ qualityLabel []
          ++ "qmin=".toList ++ sampleEnv.showDouble ⟨true, 4⟩ (.finite 0)
          ++ ", qmin*=".toList ++ sampleEnv.showDouble ⟨true, 4⟩ (.finite 1)
          ++ ", qmean=".toList ++ sampleEnv.showDouble ⟨true, 4⟩ (.finite 1)
          ++ "\n".toList ∧
    (printMeshQuality sampleEnv ⟨.finite 1, none, .finite 1, none⟩ []
        (initialWorld [])).2.cout
      = (initialWorld ([] : List StoredFile)).cout ++ qualityLabel []
          ++ "qmin=".toList ++ sampleEnv.showDouble ⟨true, 4⟩ (.finite 1)
          ++ ", qmean=".toList ++ sampleEnv.showDouble ⟨true, 4⟩ (.finite 1)
          ++ "\n".toList :=
  ⟨(printMeshQuality_line sampleEnv _ _ _).2.1 (by decide) 2 rfl,
   (printMeshQuality_line sampleEnv _ _ _).2.2.1 (by decide) rfl,
   (printMeshQuality_line sampleEnv _ _ _).2.2.2.2.1 (by decide) (.finite 1) rfl,
   (printMeshQuality_line sampleEnv _ _ _).2.2.2.2.2 (by decide) rfl⟩

/-- C3, as stated, fails when `create_directory` raises: on the input path
`grid.txt` the run then ends in the exception of `create_directory`, which is
not the one of `readInitialMesh`; `readInitialMesh` is never reached. -/
theorem main_abort_error_of_create_directory :
    extension "grid.txt".toList ≠ ".mesh".toList ∧
    extension "grid.txt".toList ≠ ".obj".toList ∧
    (main failingDirectoryEnv ["getme".toList, "grid.txt".toList] (initialWorld [])).1
      = .error "Cannot create directory.".toList ∧
    (main failingDirectoryEnv ["getme".toList, "grid.txt".toList] (initialWorld [])).1
      ≠ .error "Unexpected file extension.".toList ∧
    (main failingDirectoryEnv ["getme".toList, "grid.txt".toList] (initialWorld [])).2.trace
      = [Event.create_directory "res".toList] := by
  refine ⟨by decide, by decide, rfl, ?_, rfl⟩
  have h : (main failingDirectoryEnv ["getme".toList, "grid.txt".toList]
      (initialWorld [])).1 = .error "Cannot create directory.".toList := rfl
  rw [h]
  intro heq
  have hne : "Cannot create directory.".toList ≠ "Unexpected file extension.".toList := by
    decide
  exact hne (Except.error.inj heq)

/-- C3, amended, at the input path `grid.txt`. -/
theorem main_aborts_before_smoothing_witness :
    (main sampleEnv ["getme".toList, "grid.txt".toList] (initialWorld [])).2.trace
      = (initialWorld ([] : List StoredFile)).trace ++ [Event.create_directory "res".toList] ∧
    (main sampleEnv ["getme".toList, "grid.txt".toList] (initialWorld [])).1
      = .error "Unexpected file extension.".toList :=
  ⟨(main_aborts_before_smoothing sampleEnv "getme".toList "grid.txt".toList []
      (initialWorld []) (by decide) (by decide)).1,
   (main_aborts_before_smoothing sampleEnv "getme".toList "grid.txt".toList []
      (initialWorld []) (by decide) (by decide)).2.1 true rfl⟩

/-! ## Element statistics -/

theorem incrementCount_keys (m : List (Nat × Nat)) (key x : Nat)
    (hx : x ∈ (incrementCount m key).map Prod.fst) : x = key ∨ x ∈ m.map Prod.fst := by
  induction m with
  | nil => simpa [incrementCount] using hx
  | cons e rest ih =>
    obtain ⟨k, c⟩ := e
    unfold incrementCount at hx
    split_ifs at hx with h1 h2
    · simp only [List.map_cons, List.mem_cons] at hx ⊢
      tauto
    · simp only [List.map_cons, List.mem_cons] at hx ⊢
      tauto
    · simp only [List.map_cons, List.mem_cons] at hx ⊢
      rcases hx with hx | hx
      · exact Or.inr (Or.inl hx)
      · rcases ih hx with h | h
        · exact Or.inl h
        · exact Or.inr (Or.inr h)

theorem incrementCount_sorted (m : List (Nat × Nat)) (key : Nat)
    (h : (m.map Prod.fst).Sorted (· < ·)) :
    ((incrementCount m key).map Prod.fst).Sorted (· < ·) := by
  induction m with
  | nil => simp [incrementCount]
  | cons e rest ih =>
    obtain ⟨k, c⟩ := e
    simp only [List.map_cons, List.sorted_cons] at h
    unfold incrementCount
    split_ifs with h1 h2
    · simp only [List.map_cons, List.sorted_cons, List.mem_cons]
      refine ⟨?_, h.1, h.2⟩
      rintro b (rfl | hb)
      · exact h1
      · exact lt_trans h1 (h.1 b hb)
    · simp only [List.map_cons, List.sorted_cons]
      exact h
    · simp only [List.map_cons, List.sorted_cons]
      refine ⟨fun b hb => ?_, ih h.2⟩
      rcases incrementCount_keys rest key b hb with rfl | hb
      · omega
      · exact h.1 b hb

theorem countOf_incrementCount (m : List (Nat × Nat)) (key n : Nat) :
    countOf (incrementCount m key) n = countOf m n + (if key = n then 1 else 0) := by
  induction m with
  | nil => by_cases h : key = n <;> simp [incrementCount, countOf, h]
  | cons e rest ih =>
    obtain ⟨k, c⟩ := e
    unfold incrementCount
    split_ifs with h1 h2 h3 h4 h5
    all_goals simp only [countOf, List.filter_cons] at ih ⊢
    all_goals split_ifs <;> simp_all <;> omega

theorem incrementCount_pos (m : List (Nat × Nat)) (key : Nat)
    (h : ∀ e ∈ m, 0 < e.2) : ∀ e ∈ incrementCount m key, 0 < e.2 := by
  induction m with
  | nil => simp [incrementCount]
  | cons e rest ih =>
    obtain ⟨k, c⟩ := e
    have hrest : ∀ e ∈ rest, 0 < e.2 := fun e he => h e (List.mem_cons_of_mem _ he)
    unfold incrementCount
    split_ifs with h1 h2
    · intro e he
      rcases List.mem_cons.mp he with rfl | he
      · exact Nat.one_pos
      · exact h e he
    · intro e he
      rcases List.mem_cons.mp he with rfl | he
      · exact Nat.succ_pos _
      · exact hrest e he
    · intro e he
      rcases List.mem_cons.mp he with rfl | he
      · exact h _ (List.mem_cons_self _ _)
      · exact ih hrest e he

theorem sum_incrementCount (m : List (Nat × Nat)) (key : Nat) :
    ((incrementCount m key).map Prod.snd).sum = (m.map Prod.snd).sum + 1 := by
  induction m with
  | nil => simp [incrementCount]
  | cons e rest ih =>
    obtain ⟨k, c⟩ := e
    unfold incrementCount
    split_ifs with h1 h2
    · simp only [List.map_cons, List.sum_cons]
      omega
    · simp only [List.map_cons, List.sum_cons]
      omega
    · simp only [List.map_cons, List.sum_cons, ih]
      omega

theorem countOf_eq_zero (m : List (Nat × Nat)) (n : Nat) (h : n ∉ m.map Prod.fst) :
    countOf m n = 0 := by
  induction m with
  | nil => rfl
  | cons e rest ih =>
    simp only [List.map_cons, List.mem_cons, not_or] at h
    have hne : ¬ e.1 = n := fun e1 => h.1 e1.symm
    have := ih h.2
    simp only [countOf, List.filter_cons, hne, decide_False] at this ⊢
    simpa using this

theorem countOf_of_mem (m : List (Nat × Nat)) (n c : Nat)
    (hs : (m.map Prod.fst).Sorted (· < ·)) (h : (n, c) ∈ m) : countOf m n = c := by
  induction m with
  | nil => simp at h
  | cons e rest ih =>
    simp only [List.map_cons, List.sorted_cons] at hs
    rcases List.mem_cons.mp h with rfl | hmem
    · have hnot : n ∉ rest.map Prod.fst := fun hn => lt_irrefl _ (hs.1 n hn)
      have := countOf_eq_zero rest n hnot
      simp only [countOf, List.filter_cons, decide_True, if_true, List.map_cons,
        List.sum_cons] at this ⊢
      omega
    · have hlt : e.1 < n := hs.1 n (List.mem_map.mpr ⟨(n, c), hmem, rfl⟩)
      have hne : ¬ e.1 = n := by omega
      have := ih hs.2 hmem
      simp only [countOf, List.filter_cons, hne, decide_False] at this ⊢
      simpa using this

theorem mem_keys_of_countOf_pos (m : List (Nat × Nat)) (n : Nat) (h : 0 < countOf m n) :
    n ∈ m.map Prod.fst := by
  by_contra hn
  have := countOf_eq_zero m n hn
  omega

/-- The counting loop of `printElementStatistics` from any map with increasing
keys and positive counts: keys stay increasing, counts stay positive, and each
key gains the number of polygons with that many nodes. -/
theorem foldl_incrementCount (polygons : List Polygon) (m : List (Nat × Nat))
    (hs : (m.map Prod.fst).Sorted (· < ·)) (hp : ∀ e ∈ m, 0 < e.2) :
    ((polygons.foldl (fun m polygon => incrementCount m polygon.getNumberOfNodes) m).map
        Prod.fst).Sorted (· < ·) ∧
    (∀ e ∈ polygons.foldl (fun m polygon => incrementCount m polygon.getNumberOfNodes) m,
        0 < e.2) ∧
    (∀ n, countOf (polygons.foldl (fun m polygon => incrementCount m polygon.getNumberOfNodes) m)
        n = countOf m n
          + polygons.countP (fun polygon => decide (polygon.getNumberOfNodes = n))) ∧
    ((polygons.foldl (fun m polygon => incrementCount m polygon.getNumberOfNodes) m).map
        Prod.snd).sum = (m.map Prod.snd).sum + polygons.length := by
  induction polygons generalizing m with
  | nil => exact ⟨hs, hp, fun n => by simp, by simp⟩
  | cons polygon rest ih =>
    obtain ⟨h1, h2, h3, h4⟩ := ih (incrementCount m polygon.getNumberOfNodes)
      (incrementCount_sorted m _ hs) (incrementCount_pos m _ hp)
    refine ⟨h1, h2, fun n => ?_, ?_⟩
    · rw [List.foldl_cons, h3 n, countOf_incrementCount, List.countP_cons]
      by_cases hn : polygon.getNumberOfNodes = n
      · simp [hn]
        omega
      · simp [hn]
    · rw [List.foldl_cons, h4, sum_incrementCount, List.length_cons]
      omega

theorem printPolygonInformation_apply {σ : Type} (numberOfNodes count : Nat) (isLast : Bool)
    (w : World σ) :
    printPolygonInformation numberOfNodes count isLast w
      = (.ok (), { w with cout := w.cout ++ (entryText (numberOfNodes, count)
          ++ (if isLast then [] else ", ".toList)) }) := by
  simp [printPolygonInformation, cout, entryText, List.append_assoc]

theorem printEntries_apply {σ : Type} (rbeginFirst : Option Nat) (m : List (Nat × Nat))
    (w : World σ) :
    printEntries rbeginFirst m w
      = (.ok (), { w with cout := w.cout ++ entriesText rbeginFirst m }) := by
  induction m generalizing w with
  | nil => simp [printEntries, entriesText]
  | cons e rest ih =>
    obtain ⟨n, c⟩ := e
    simp only [printEntries, Prog.bind_apply, printPolygonInformation_apply, ih, entriesText]
    by_cases h : some n = rbeginFirst <;> simp [h, List.append_assoc]

theorem entriesText_eq_intercalate (m : List (Nat × Nat))
    (hs : (m.map Prod.fst).Sorted (· < ·)) :
    entriesText (m.getLast?.map Prod.fst) m = ", ".toList.intercalate (m.map entryText) := by
  induction m with
  | nil => rfl
  | cons e rest ih =>
    cases rest with
    | nil => simp [entriesText, List.intercalate]
    | cons e1 rest1 =>
      simp only [List.map_cons, List.sorted_cons] at hs
      have hlast : ∃ l, (e1 :: rest1).getLast? = some l ∧ l ∈ e1 :: rest1 := by
        refine ⟨(e1 :: rest1).getLast (by simp), List.getLast?_eq_getLast _ _, ?_⟩
        exact List.getLast_mem _
      obtain ⟨l, hl, hmem⟩ := hlast
      have hlt : e.1 < l.1 := hs.1 l.1 (List.mem_map.mpr ⟨l, hmem, rfl⟩)
      have hne : ¬ (e.1 = l.1) := by omega
      have ih1 := ih (by simpa using hs.2)
      rw [List.getLast?_cons_cons, entriesText]
      rw [ih1]
      simp [hl, hne, List.intercalate, List.append_assoc]

theorem printElementStatistics_apply {σ : Type} (mesh : PolygonalMesh) (w : World σ) :
    printElementStatistics mesh w
      = (.ok (), { w with
        cout := w.cout ++ "  elements: ".toList
          ++ entriesText ((numberOfNodesToCount mesh.polygons).getLast?.map Prod.fst)
            (numberOfNodesToCount mesh.polygons)
          ++ "\n".toList }) := by
  simp only [printElementStatistics, Prog.bind_apply, cout, printEntries_apply]

/-- C8: the entries `printElementStatistics` prints are those of a map whose
keys, in strictly increasing order, are exactly the node counts that occur in
the mesh, each with the number of polygons having that many nodes, so that the
counts add up to the number of polygons; the entries are printed in that order
with ", " between consecutive entries and none after the last; an empty mesh
has no entry. -/
theorem printElementStatistics_entries {σ : Type} (mesh : PolygonalMesh) (w : World σ) :
    ((numberOfNodesToCount mesh.polygons).map Prod.fst).Sorted (· < ·) ∧
    (∀ n, n ∈ (numberOfNodesToCount mesh.polygons).map Prod.fst
      ↔ ∃ polygon ∈ mesh.polygons, polygon.getNumberOfNodes = n) ∧
    (∀ n c, (n, c) ∈ numberOfNodesToCount mesh.polygons
      → c = mesh.polygons.countP (fun polygon => decide (polygon.getNumberOfNodes = n))) ∧
    ((numberOfNodesToCount mesh.polygons).map Prod.snd).sum = mesh.polygons.length ∧
    printElementStatistics mesh w
      = (.ok (), { w with cout := w.cout ++ "  elements: ".toList
          ++ ", ".toList.intercalate ((numberOfNodesToCount mesh.polygons).map entryText)
          ++ "\n".toList }) ∧
    numberOfNodesToCount [] = [] := by
  have hfold := foldl_incrementCount mesh.polygons [] (by simp) (by simp)
  have hs : ((numberOfNodesToCount mesh.polygons).map Prod.fst).Sorted (· < ·) := hfold.1
  have hp : ∀ e ∈ numberOfNodesToCount mesh.polygons, 0 < e.2 := hfold.2.1
  have hc1 : ∀ n, countOf (numberOfNodesToCount mesh.polygons) n
      = mesh.polygons.countP (fun polygon => decide (polygon.getNumberOfNodes = n)) :=
    fun n => (hfold.2.2.1 n).trans (by simp [countOf])
  have hsum : ((numberOfNodesToCount mesh.polygons).map Prod.snd).sum = mesh.polygons.length :=
    hfold.2.2.2.trans (by simp)
  have hmem : ∀ n c, (n, c) ∈ numberOfNodesToCount mesh.polygons
      → c = mesh.polygons.countP (fun polygon => decide (polygon.getNumberOfNodes = n)) :=
    fun n c h => (countOf_of_mem _ n c hs h).symm.trans (hc1 n)
  refine ⟨hs, fun n => ⟨fun h => ?_, fun h => ?_⟩, hmem, hsum, ?_, rfl⟩
  · obtain ⟨e, he, rfl⟩ := List.mem_map.mp h
    have hpos : 0 < e.2 := hp e he
    have hcount := hmem e.1 e.2 he
    rw [hcount, List.countP_pos_iff] at hpos
    obtain ⟨polygon, hpoly, hn⟩ := hpos
    exact ⟨polygon, hpoly, by simpa using hn⟩
  · obtain ⟨polygon, hpoly, hn⟩ := h
    apply mem_keys_of_countOf_pos
    rw [hc1 n, List.countP_pos_iff]
    exact ⟨polygon, hpoly, by simpa using hn⟩
  · rw [printElementStatistics_apply, entriesText_eq_intercalate _ hs]

/-- C8, at a mesh of two triangles and a quadrilateral between them, and at the
empty mesh. -/
theorem printElementStatistics_entries_witness :
    numberOfNodesToCount sampleMixedMesh.polygons = [(3, 2), (4, 1)] ∧
    (printElementStatistics sampleMixedMesh (initialWorld ([] : List StoredFile))).2.cout
      = "  elements: 2 triangles, 1 quadrilateral\n".toList ∧
    (printElementStatistics ⟨[], [], ∅⟩ (initialWorld ([] : List StoredFile))).2.cout
      = "  elements: \n".toList := by
  refine ⟨by decide, ?_, ?_⟩
  · rw [(printElementStatistics_entries sampleMixedMesh
      (initialWorld ([] : List StoredFile))).2.2.2.2.1]
    decide
  · rw [(printElementStatistics_entries ⟨[], [], ∅⟩
      (initialWorld ([] : List StoredFile))).2.2.2.2.1]
    decide

/-! ## Calls made by a computation -/

theorem adds_weaken {σ α : Type} {x : Prog σ α} {w : World σ}
    {Q1 Q : Except CppString α → σ → List Event → Prop}
    (hx : Adds x w Q1) (h : ∀ r s evs, Q1 r s evs → Q r s evs) : Adds x w Q := by
  obtain ⟨evs, ht, hq⟩ := hx
  exact ⟨evs, ht, h _ _ _ hq⟩

theorem adds_bind {σ α β : Type} {x : Prog σ α} {f : α → Prog σ β} {w : World σ}
    {Q1 : Except CppString α → σ → List Event → Prop}
    {Q : Except CppString β → σ → List Event → Prop}
    (hx : Adds x w Q1)
    (herr : ∀ e s evs, Q1 (.error e) s evs → Q (.error e) s evs)
    (hok : ∀ a s evs, Q1 (.ok a) s evs → ∀ w1 : World σ, w1.fs = s →
      Adds (f a) w1 (fun r s2 evs2 => Q r s2 (evs ++ evs2))) :
    Adds (x >>= f) w Q := by
  obtain ⟨evs, ht, hq⟩ := hx
  rcases hxw : x w with ⟨r, w1⟩
  rw [hxw] at ht hq
  cases r with
  | error e =>
    refine ⟨evs, ?_, ?_⟩
    · simp only [Prog.bind_apply, hxw]; exact ht
    · simp only [Prog.bind_apply, hxw]; exact herr e _ _ hq
  | ok a =>
    obtain ⟨evs2, ht2, hq2⟩ := hok a _ evs hq w1 rfl
    refine ⟨evs ++ evs2, ?_, ?_⟩
    · simp only [Prog.bind_apply, hxw]
      rw [ht2]
      simp only [] at ht
      rw [ht, List.append_assoc]
    · simp only [Prog.bind_apply, hxw]; exact hq2

theorem adds_pure {σ α : Type} (a : α) (w : World σ) :
    Adds (pure a : Prog σ α) w (fun r s evs => r = .ok a ∧ s = w.fs ∧ evs = []) :=
  ⟨[], by simp, rfl, rfl, rfl⟩

theorem adds_emit {σ : Type} (e : Event) (w : World σ) :
    Adds (emit e) w (fun r s evs => r = .ok () ∧ s = w.fs ∧ evs = [e]) :=
  ⟨[e], rfl, rfl, rfl, rfl⟩

theorem adds_call {σ α : Type} (r0 : Except CppString α) (w : World σ) :
    Adds (call r0) w (fun r s evs => r = r0 ∧ s = w.fs ∧ evs = []) :=
  ⟨[], by simp [call], rfl, rfl, rfl⟩

theorem adds_writeFs {σ α : Type} (f : σ → Except CppString α × σ) (w : World σ) :
    Adds (writeFs f) w (fun r s evs => r = (f w.fs).1 ∧ s = (f w.fs).2 ∧ evs = []) :=
  ⟨[], by simp [writeFs], rfl, rfl, rfl⟩

theorem adds_quiet {σ α : Type} {x : Prog σ α} (h : Quiet x) (w : World σ) :
    Adds x w (fun _ s evs => s = w.fs ∧ evs = []) :=
  ⟨[], by simp [(h w).1], (h w).2, rfl⟩

theorem quiet_bind {σ α β : Type} {x : Prog σ α} {f : α → Prog σ β}
    (hx : Quiet x) (hf : ∀ a, Quiet (f a)) : Quiet (x >>= f) := by
  intro w
  rcases hxw : x w with ⟨r, w1⟩
  have h1 := hx w
  rw [hxw] at h1
  cases r with
  | error e => simpa only [Prog.bind_apply, hxw] using h1
  | ok a =>
    have h2 := hf a w1
    simp only [Prog.bind_apply, hxw]
    exact ⟨h2.1.trans h1.1, h2.2.trans h1.2⟩

theorem quiet_pure {σ α : Type} (a : α) : Quiet (pure a : Prog σ α) := fun _ => ⟨rfl, rfl⟩

theorem quiet_cout {σ : Type} (text : CppString) : Quiet (cout text : Prog σ Unit) :=
  fun _ => ⟨rfl, rfl⟩

theorem quiet_coutFixed {σ : Type} (precision : Nat) :
    Quiet (coutFixed precision : Prog σ Unit) := fun _ => ⟨rfl, rfl⟩

theorem quiet_coutDouble {σ : Type} (env : Env σ) (d : Double) : Quiet (coutDouble env d) :=
  fun _ => ⟨rfl, rfl⟩

theorem quiet_call {σ α : Type} (r : Except CppString α) : Quiet (call r : Prog σ α) :=
  fun _ => ⟨rfl, rfl⟩

theorem quiet_printElementStatistics {σ : Type} (mesh : PolygonalMesh) :
    Quiet (printElementStatistics mesh : Prog σ Unit) := by
  intro w
  rw [printElementStatistics_apply]
  exact ⟨rfl, rfl⟩

theorem quiet_printMeshDimension {σ : Type} (env : Env σ) (mesh : PolygonalMesh) :
    Quiet (printMeshDimension env mesh) := by
  unfold printMeshDimension
  refine quiet_bind (quiet_call _) fun boundingBox => ?_
  refine quiet_bind (quiet_cout _) fun _ => ?_
  refine quiet_bind (quiet_coutDouble _ _) fun _ => ?_
  refine quiet_bind (quiet_cout _) fun _ => ?_
  refine quiet_bind (quiet_coutDouble _ _) fun _ => ?_
  exact quiet_cout _

theorem quiet_printMeshQuality {σ : Type} (env : Env σ) (meshQuality : MeshQuality)
    (descriptionPrefix : CppString) : Quiet (printMeshQuality env meshQuality descriptionPrefix) := by
  unfold printMeshQuality
  refine quiet_bind (quiet_cout _) fun _ => ?_
  split
  · split
    · exact quiet_cout _
    · exact quiet_cout _
  · refine quiet_bind (quiet_coutFixed _) fun _ => ?_
    refine quiet_bind (quiet_cout _) fun _ => ?_
    refine quiet_bind (quiet_coutDouble _ _) fun _ => ?_
    have hjp : Quiet (do
        cout ", qmean=".toList
        coutDouble env meshQuality.getQMean
        cout "\n".toList : Prog σ Unit) :=
      quiet_bind (quiet_cout _) fun _ => quiet_bind (quiet_coutDouble _ _) fun _ => quiet_cout _
    dsimp only
    split
    · refine quiet_bind (quiet_cout _) fun _ => ?_
      exact quiet_bind (quiet_coutDouble _ _) fun _ => hjp
    · exact quiet_bind (quiet_pure _) fun _ => hjp

theorem quiet_printSmoothingResultBase {σ : Type} (env : Env σ) (algorithmName : CppString)
    (meshQuality : MeshQuality) (time : Double) :
    Quiet (printSmoothingResultBase env algorithmName meshQuality time) := by
  unfold printSmoothingResultBase
  refine quiet_bind (quiet_cout _) fun _ => ?_
  refine quiet_bind (quiet_printMeshQuality _ _ _) fun _ => ?_
  refine quiet_bind (quiet_cout _) fun _ => ?_
  refine quiet_bind (quiet_coutFixed _) fun _ => ?_
  refine quiet_bind (quiet_coutDouble _ _) fun _ => ?_
  exact quiet_cout _

theorem quiet_printInitialMeshInformation {σ : Type} (env : Env σ) (mesh : PolygonalMesh) :
    Quiet (printInitialMeshInformation env mesh) := by
  unfold printInitialMeshInformation
  refine quiet_bind (quiet_cout _) fun _ => ?_
  refine quiet_bind (quiet_printElementStatistics _) fun _ => ?_
  refine quiet_bind (quiet_printMeshDimension _ _) fun _ => ?_
  refine quiet_bind (quiet_call _) fun meshQuality => ?_
  exact quiet_printMeshQuality _ _ _

theorem quiet_printSmoothingResult {σ : Type} (env : Env σ) (result : SmoothingResult) :
    Quiet (printSmoothingResult env result) := by
  unfold printSmoothingResult
  exact quiet_bind (quiet_printSmoothingResultBase _ _ _ _) fun _ => quiet_cout _

theorem quiet_printGetmeResult {σ : Type} (env : Env σ) (result : GetmeResult) :
    Quiet (printGetmeResult env result) := by
  unfold printGetmeResult
  exact quiet_bind (quiet_printSmoothingResultBase _ _ _ _) fun _ => quiet_cout _

/-! ## Calls made by the driver -/

/-- The outcomes of `writeResultMesh`, by the extension of the path. -/
theorem writeResultMesh_apply {σ : Type} (env : Env σ) (mesh : PolygonalMesh)
    (p meshName : CppString) (w : World σ) :
    writeResultMesh env mesh p meshName w =
      if extension p = ".mesh".toList then
        ((env.writeMeshFile mesh (resultMeshPath p meshName) w.fs).1,
          ⟨(env.writeMeshFile mesh (resultMeshPath p meshName) w.fs).2,
            w.cout ++ ("Writing result mesh file ".toList ++ resultMeshPath p meshName
              ++ "\n".toList),
            w.coutFormat,
            w.trace ++ [.writeResultMesh mesh p meshName]
              ++ [.writeMeshFile mesh (resultMeshPath p meshName)]⟩)
      else if extension p = ".obj".toList then
        ((env.writeObjFile mesh (resultMeshPath p meshName) w.fs).1,
          ⟨(env.writeObjFile mesh (resultMeshPath p meshName) w.fs).2,
            w.cout ++ ("Writing result mesh file ".toList ++ resultMeshPath p meshName
              ++ "\n".toList),
            w.coutFormat,
            w.trace ++ [.writeResultMesh mesh p meshName]
              ++ [.writeObjFile mesh (resultMeshPath p meshName)]⟩)
      else
        (.ok (),
          ⟨w.fs,
            w.cout ++ ("Writing result mesh file ".toList ++ resultMeshPath p meshName
              ++ "\n".toList),
            w.coutFormat,
            w.trace ++ [.writeResultMesh mesh p meshName]⟩) := by
  obtain ⟨i, hfe⟩ := Option.ne_none_iff_exists'.mp (find_extension_ne_none p)
  unfold writeResultMesh resultMeshPath
  dsimp only
  rw [hfe]
  simp only [throwExceptionIfTrue, reduceCtorEq, decide_False, Bool.false_eq_true, if_false,
    Prog.bind_apply, Prog.pure_apply, emit, cout, writeFs, Option.getD_some]
  split_ifs <;> simp only [Prog.bind_apply, Prog.pure_apply, emit, writeFs, List.append_assoc]

theorem adds_readInitialMesh {σ : Type} (env : Env σ) (p : CppString) (w : World σ) :
    Adds (readInitialMesh env p) w (fun r s evs =>
      r = (readInitialMesh env p (initialWorld w.fs)).1 ∧ s = w.fs ∧ evs = readEvents p) := by
  unfold Adds readEvents
  simp only [readInitialMesh_apply]
  split_ifs
  · exact ⟨_, rfl, rfl, rfl, rfl⟩
  · exact ⟨_, rfl, rfl, rfl, rfl⟩
  · exact ⟨[], by simp, rfl, rfl, rfl⟩

theorem adds_writeResultMesh {σ : Type} (env : Env σ) (mesh : PolygonalMesh)
    (p meshName : CppString) (w : World σ) :
    Adds (writeResultMesh env mesh p meshName) w (fun _ _ evs =>
      evs = .writeResultMesh mesh p meshName :: writeEvents mesh p meshName) := by
  unfold Adds writeEvents
  simp only [writeResultMesh_apply]
  split_ifs
  · exact ⟨_, by simp, rfl⟩
  · exact ⟨_, by simp, rfl⟩
  · exact ⟨_, rfl, rfl⟩

theorem callOk_readEvents {σ : Type} (env : Env σ) (inputFilePath : CppString) (fs : σ)
    (p : CppString) : ∀ e ∈ readEvents p, CallOk env inputFilePath fs e := by
  intro e he
  unfold readEvents at he
  split_ifs at he <;> simp at he <;> subst he <;> trivial

theorem callOk_writeEvents {σ : Type} (env : Env σ) (inputFilePath : CppString) (fs : σ)
    (mesh : PolygonalMesh) (p meshName : CppString) :
    ∀ e ∈ writeEvents mesh p meshName, CallOk env inputFilePath fs e := by
  intro e he
  unfold writeEvents at he
  split_ifs at he <;> simp at he <;> subst he <;> trivial

/-- The calls of the driver: every call made is of the expected form, and a run
that returns has made exactly the calls of `completeTrace`. -/
theorem main_calls {σ : Type} (env : Env σ) (prog inputFilePath : CppString)
    (rest : List CppString) (fs : σ) :
    (∀ e ∈ (main env (prog :: inputFilePath :: rest) (initialWorld fs)).2.trace,
      CallOk env inputFilePath fs e) ∧
    (∀ code, (main env (prog :: inputFilePath :: rest) (initialWorld fs)).1 = .ok code →
      ∃ initialMesh smartLaplaceResult getmeResult,
        initialMeshResult env inputFilePath fs = .ok initialMesh ∧
        env.smartLaplace initialMesh {} = .ok smartLaplaceResult ∧
        env.getme initialMesh ⟨initialMesh.getMaximalNumberOfPolygonNodes⟩ = .ok getmeResult ∧
        (main env (prog :: inputFilePath :: rest) (initialWorld fs)).2.trace
          = completeTrace inputFilePath initialMesh smartLaplaceResult getmeResult) := by
  have key : Adds (main env (prog :: inputFilePath :: rest)) (initialWorld fs)
      (fun r _ evs => (∀ e ∈ evs, CallOk env inputFilePath fs e) ∧
        (∀ code, r = .ok code →
          ∃ initialMesh smartLaplaceResult getmeResult,
            initialMeshResult env inputFilePath fs = .ok initialMesh ∧
            env.smartLaplace initialMesh {} = .ok smartLaplaceResult ∧
            env.getme initialMesh ⟨initialMesh.getMaximalNumberOfPolygonNodes⟩
              = .ok getmeResult ∧
            evs = completeTrace inputFilePath initialMesh smartLaplaceResult getmeResult)) := by
    have hR := callOk_readEvents env inputFilePath fs
    have hW := callOk_writeEvents env inputFilePath fs
    unfold main
    dsimp only
    refine adds_bind (adds_quiet (quiet_cout _) _) ?_ ?_
    · rintro e s evs ⟨-, rfl⟩
      exact ⟨by simp, fun _ h => by cases h⟩
    rintro - s evs ⟨rfl, rfl⟩ w1 hw1
    refine adds_bind (adds_emit _ _) ?_ ?_
    · rintro e s evs ⟨h, -, -⟩
      cases h
    rintro - s evs ⟨-, rfl, rfl⟩ w2 hw2
    refine adds_bind (adds_writeFs _ _) ?_ ?_
    · rintro e s evs ⟨-, -, rfl⟩
      exact ⟨by simp [CallOk], fun _ h => by cases h⟩
    rintro created s evs ⟨-, rfl, rfl⟩ w3 hw3
    refine adds_bind (adds_readInitialMesh _ _ _) ?_ ?_
    · rintro e s evs ⟨-, -, rfl⟩
      refine ⟨?_, fun _ h => by cases h⟩
      simp only [List.append_nil, List.nil_append, List.forall_mem_append, List.mem_singleton,
        forall_eq]
      exact ⟨trivial, hR _⟩
    rintro initialMesh s evs ⟨hread, rfl, rfl⟩ w4 hw4
    have hinit : initialMeshResult env inputFilePath s = .ok initialMesh := by
      unfold initialMeshResult
      rw [← hw1, ← hw2, ← hw3]
      exact hread.symm
    have hR' : ∀ p, (∀ e ∈ readEvents p, CallOk env inputFilePath s e) ↔ True :=
      fun p => iff_true_intro (hR p)
    have hW' : ∀ mesh p meshName,
        (∀ e ∈ writeEvents mesh p meshName, CallOk env inputFilePath s e) ↔ True :=
      fun mesh p meshName => iff_true_intro (hW mesh p meshName)
    have hcd : CallOk env inputFilePath s (.create_directory "res".toList) := trivial
    have hw1c : CallOk env inputFilePath s
        (.writeResultMesh initialMesh (ouputFilePath inputFilePath) "initial".toList) :=
      ⟨rfl, Or.inl ⟨rfl, hinit⟩⟩
    have hslc : CallOk env inputFilePath s (.smartLaplace initialMesh {}) := hinit
    have hgc : CallOk env inputFilePath s
        (.getme initialMesh ⟨initialMesh.getMaximalNumberOfPolygonNodes⟩) := ⟨hinit, rfl⟩
    clear hread hw1 hw2 hw3 hw4
    refine adds_bind (adds_quiet (quiet_printInitialMeshInformation _ _) _) ?_ ?_
    · rintro e s1 evs ⟨-, rfl⟩
      refine ⟨?_, fun _ h => by cases h⟩
      simp only [List.append_nil, List.nil_append, List.forall_mem_append, List.forall_mem_cons,
        List.mem_singleton, forall_eq, hR', hW', and_true, true_and]
      exact hcd
    rintro - s1 evs ⟨-, rfl⟩ w5 -
    refine adds_bind (adds_writeResultMesh _ _ _ _ _) ?_ ?_
    · rintro e s1 evs rfl
      refine ⟨?_, fun _ h => by cases h⟩
      simp only [List.append_nil, List.nil_append, List.forall_mem_append, List.forall_mem_cons,
        List.mem_singleton, forall_eq, hR', hW', and_true, true_and]
      exact ⟨hcd, hw1c⟩
    rintro - s1 evs rfl w6 -
    refine adds_bind (adds_emit _ _) ?_ ?_
    · rintro e s1 evs ⟨h, -, -⟩
      cases h
    rintro - s1 evs ⟨-, -, rfl⟩ w7 -
    refine adds_bind (adds_call _ _) ?_ ?_
    · rintro e s1 evs ⟨-, -, rfl⟩
      refine ⟨?_, fun _ h => by cases h⟩
      simp only [List.append_nil, List.nil_append, List.forall_mem_append, List.forall_mem_cons,
        List.mem_singleton, forall_eq, hR', hW', and_true, true_and]
      exact ⟨hcd, hw1c, hslc⟩
    rintro smartLaplaceResult s1 evs ⟨hsl, -, rfl⟩ w8 -
    have hw2c : CallOk env inputFilePath s
        (.writeResultMesh smartLaplaceResult.mesh (ouputFilePath inputFilePath)
          "smart_laplace".toList) :=
      ⟨rfl, Or.inr (Or.inl ⟨rfl, initialMesh, smartLaplaceResult, hinit, hsl.symm, rfl⟩)⟩
    refine adds_bind (adds_quiet (quiet_printSmoothingResult _ _) _) ?_ ?_
    · rintro e s1 evs ⟨-, rfl⟩
      refine ⟨?_, fun _ h => by cases h⟩
      simp only [List.append_nil, List.nil_append, List.forall_mem_append, List.forall_mem_cons,
        List.mem_singleton, forall_eq, hR', hW', and_true, true_and]
      exact ⟨hcd, hw1c, hslc⟩
    rintro - s1 evs ⟨-, rfl⟩ w9 -
    refine adds_bind (adds_writeResultMesh _ _ _ _ _) ?_ ?_
    · rintro e s1 evs rfl
      refine ⟨?_, fun _ h => by cases h⟩
      simp only [List.append_nil, List.nil_append, List.forall_mem_append, List.forall_mem_cons,
        List.mem_singleton, forall_eq, hR', hW', and_true, true_and]
      exact ⟨hcd, hw1c, hslc, hw2c⟩
    rintro - s1 evs rfl w10 -
    refine adds_bind (adds_emit _ _) ?_ ?_
    · rintro e s1 evs ⟨h, -, -⟩
      cases h
    rintro - s1 evs ⟨-, -, rfl⟩ w11 -
    refine adds_bind (adds_call _ _) ?_ ?_
    · rintro e s1 evs ⟨-, -, rfl⟩
      refine ⟨?_, fun _ h => by cases h⟩
      simp only [List.append_nil, List.nil_append, List.forall_mem_append, List.forall_mem_cons,
        List.mem_singleton, forall_eq, hR', hW', and_true, true_and]
      exact ⟨hcd, hw1c, hslc, hw2c, hgc⟩
    rintro getmeResult s1 evs ⟨hg, -, rfl⟩ w12 -
    have hw3c : CallOk env inputFilePath s
        (.writeResultMesh getmeResult.mesh (ouputFilePath inputFilePath) "getme".toList) :=
      ⟨rfl, Or.inr (Or.inr ⟨rfl, initialMesh, getmeResult, hinit, hg.symm, rfl⟩)⟩
    refine adds_bind (adds_quiet (quiet_printGetmeResult _ _) _) ?_ ?_
    · rintro e s1 evs ⟨-, rfl⟩
      refine ⟨?_, fun _ h => by cases h⟩
      simp only [List.append_nil, List.nil_append, List.forall_mem_append, List.forall_mem_cons,
        List.mem_singleton, forall_eq, hR', hW', and_true, true_and]
      exact ⟨hcd, hw1c, hslc, hw2c, hgc⟩
    rintro - s1 evs ⟨-, rfl⟩ w13 -
    refine adds_bind (adds_writeResultMesh _ _ _ _ _) ?_ ?_
    · rintro e s1 evs rfl
      refine ⟨?_, fun _ h => by cases h⟩
      simp only [List.append_nil, List.nil_append, List.forall_mem_append, List.forall_mem_cons,
        List.mem_singleton, forall_eq, hR', hW', and_true, true_and]
      exact ⟨hcd, hw1c, hslc, hw2c, hgc, hw3c⟩
    rintro - s1 evs rfl w14 -
    refine adds_weaken (adds_pure _ _) ?_
    rintro r s1 evs ⟨-, -, rfl⟩
    refine ⟨?_, fun _ _ => ⟨initialMesh, smartLaplaceResult, getmeResult, hinit, hsl.symm,
      hg.symm, ?_⟩⟩
    · simp only [List.append_nil, List.nil_append, List.forall_mem_append, List.forall_mem_cons,
        List.mem_singleton, forall_eq, hR', hW', and_true, true_and]
      exact ⟨hcd, hw1c, hslc, hw2c, hgc, hw3c⟩
    · simp only [completeTrace, List.append_nil, List.nil_append, List.append_assoc,
        List.cons_append, List.singleton_append]
  obtain ⟨evs, ht, hq⟩ := key
  have ht1 : (main env (prog :: inputFilePath :: rest) (initialWorld fs)).2.trace = evs := by
    rw [ht]; rfl
  rw [ht1]
  exact hq

theorem find_eq_of_first {s needle : CppString} {i : Nat} (h1 : needle <+: s.drop i)
    (h2 : ∀ j, j < i → ¬ needle <+: s.drop j) : find s needle = some i := by
  have hinfix : needle <:+: s := h1.isInfix.trans (List.drop_suffix i s).isInfix
  obtain ⟨k, hk⟩ := Option.ne_none_iff_exists'.mp
    (fun h => (find_eq_none_iff s needle).mp h hinfix)
  obtain ⟨hk1, -, hk3⟩ := find_eq_some hk
  rcases Nat.lt_trichotomy k i with hlt | heq | hgt
  · exact absurd hk1 (h2 k hlt)
  · rw [hk, heq]
  · exact absurd h1 (hk3 i hgt)

theorem writeResultMeshCalls_readEvents (p : CppString) :
    writeResultMeshCalls (readEvents p) = [] := by
  unfold readEvents writeResultMeshCalls
  split_ifs <;> rfl

theorem writeResultMeshCalls_writeEvents (mesh : PolygonalMesh) (p meshName : CppString) :
    writeResultMeshCalls (writeEvents mesh p meshName) = [] := by
  unfold writeEvents writeResultMeshCalls
  split_ifs <;> rfl

theorem writeResultMeshCalls_append (a b : List Event) :
    writeResultMeshCalls (a ++ b) = writeResultMeshCalls a ++ writeResultMeshCalls b := by
  simp [writeResultMeshCalls, List.filterMap_append]

theorem writeResultMeshCalls_completeTrace (inputFilePath : CppString)
    (initialMesh : PolygonalMesh) (smartLaplaceResult : SmoothingResult)
    (getmeResult : GetmeResult) :
    writeResultMeshCalls
        (completeTrace inputFilePath initialMesh smartLaplaceResult getmeResult)
      = [(ouputFilePath inputFilePath, "initial".toList),
         (ouputFilePath inputFilePath, "smart_laplace".toList),
         (ouputFilePath inputFilePath, "getme".toList)] := by
  have hcons : ∀ (mesh : PolygonalMesh) (p meshName : CppString) (l : List Event),
      writeResultMeshCalls (.writeResultMesh mesh p meshName :: l)
        = (p, meshName) :: writeResultMeshCalls l := fun _ _ _ _ => rfl
  have h1 : ∀ p l, writeResultMeshCalls (.create_directory p :: l) = writeResultMeshCalls l :=
    fun _ _ => rfl
  have h2 : ∀ mesh config l,
      writeResultMeshCalls (.smartLaplace mesh config :: l) = writeResultMeshCalls l :=
    fun _ _ _ => rfl
  have h3 : ∀ mesh config l,
      writeResultMeshCalls (.getme mesh config :: l) = writeResultMeshCalls l :=
    fun _ _ _ => rfl
  have h0 : writeResultMeshCalls [] = [] := rfl
  unfold completeTrace
  simp only [writeResultMeshCalls_append, hcons, h0, h1, h2, h3,
    writeResultMeshCalls_readEvents, writeResultMeshCalls_writeEvents, List.nil_append,
    List.append_nil, List.cons_append]

/-- C5: in a run of the driver, both engines are only ever called on the mesh
that `readInitialMesh` returned, GETMe with the configuration built from the
maximal polygon node count of that mesh; the mesh passed to `writeResultMesh`
under the name "smart_laplace" is the mesh of the smart Laplace result, and the
one passed under the name "getme" is the mesh of the GETMe result, each on that
initial mesh; a run that returns has made exactly the calls of `completeTrace`,
among them the smart Laplace call and then the GETMe call, both on the initial
mesh; and replacing the smart Laplace engine by any other leaves the mesh and
path written under "getme" the same. -/
theorem main_getme_on_initial_mesh {σ : Type} (env : Env σ) (prog inputFilePath : CppString)
    (rest : List CppString) (fs : σ) :
    (∀ mesh config,
      Event.smartLaplace mesh config
          ∈ (main env (prog :: inputFilePath :: rest) (initialWorld fs)).2.trace →
        initialMeshResult env inputFilePath fs = .ok mesh) ∧
    (∀ mesh config,
      Event.getme mesh config
          ∈ (main env (prog :: inputFilePath :: rest) (initialWorld fs)).2.trace →
        initialMeshResult env inputFilePath fs = .ok mesh
          ∧ config = ⟨mesh.getMaximalNumberOfPolygonNodes⟩) ∧
    (∀ mesh p,
      Event.writeResultMesh mesh p "smart_laplace".toList
          ∈ (main env (prog :: inputFilePath :: rest) (initialWorld fs)).2.trace →
        ∃ initialMesh result,
          initialMeshResult env inputFilePath fs = .ok initialMesh
            ∧ env.smartLaplace initialMesh {} = .ok result
            ∧ mesh = result.mesh) ∧
    (∀ mesh p,
      Event.writeResultMesh mesh p "getme".toList
          ∈ (main env (prog :: inputFilePath :: rest) (initialWorld fs)).2.trace →
        ∃ initialMesh result,
          initialMeshResult env inputFilePath fs = .ok initialMesh
            ∧ env.getme initialMesh ⟨initialMesh.getMaximalNumberOfPolygonNodes⟩ = .ok result
            ∧ mesh = result.mesh) ∧
    (∀ code, (main env (prog :: inputFilePath :: rest) (initialWorld fs)).1 = .ok code →
      ∃ initialMesh smartLaplaceResult getmeResult,
        initialMeshResult env inputFilePath fs = .ok initialMesh
          ∧ env.smartLaplace initialMesh {} = .ok smartLaplaceResult
          ∧ env.getme initialMesh ⟨initialMesh.getMaximalNumberOfPolygonNodes⟩
              = .ok getmeResult
          ∧ (main env (prog :: inputFilePath :: rest) (initialWorld fs)).2.trace
              = completeTrace inputFilePath initialMesh smartLaplaceResult getmeResult
          ∧ Event.smartLaplace initialMesh {}
              ∈ (main env (prog :: inputFilePath :: rest) (initialWorld fs)).2.trace
          ∧ Event.getme initialMesh ⟨initialMesh.getMaximalNumberOfPolygonNodes⟩
              ∈ (main env (prog :: inputFilePath :: rest) (initialWorld fs)).2.trace
          ∧ Event.writeResultMesh smartLaplaceResult.mesh (ouputFilePath inputFilePath)
              "smart_laplace".toList
              ∈ (main env (prog :: inputFilePath :: rest) (initialWorld fs)).2.trace
          ∧ Event.writeResultMesh getmeResult.mesh (ouputFilePath inputFilePath)
              "getme".toList
              ∈ (main env (prog :: inputFilePath :: rest) (initialWorld fs)).2.trace) ∧
    (∀ (otherSmartLaplace : PolygonalMesh → SmartLaplaceConfig → Except CppString SmoothingResult)
        mesh p mesh1 p1,
      Event.writeResultMesh mesh p "getme".toList
          ∈ (main env (prog :: inputFilePath :: rest) (initialWorld fs)).2.trace →
      Event.writeResultMesh mesh1 p1 "getme".toList
          ∈ (main { env with smartLaplace := otherSmartLaplace }
              (prog :: inputFilePath :: rest) (initialWorld fs)).2.trace →
        mesh = mesh1 ∧ p = p1) := by
  have hne1 : "getme".toList ≠ "initial".toList := by decide
  have hne2 : "getme".toList ≠ "smart_laplace".toList := by decide
  have hne3 : "smart_laplace".toList ≠ "initial".toList := by decide
  have hwrite : ∀ (env1 : Env σ) mesh p,
      Event.writeResultMesh mesh p "getme".toList
          ∈ (main env1 (prog :: inputFilePath :: rest) (initialWorld fs)).2.trace →
        p = ouputFilePath inputFilePath ∧ ∃ initialMesh result,
          initialMeshResult env1 inputFilePath fs = .ok initialMesh
            ∧ env1.getme initialMesh ⟨initialMesh.getMaximalNumberOfPolygonNodes⟩ = .ok result
            ∧ mesh = result.mesh := by
    intro env1 mesh p h
    obtain ⟨hp, h1 | h2 | h3⟩ := (main_calls env1 prog inputFilePath rest fs).1 _ h
    · exact absurd h1.1 hne1
    · exact absurd h2.1 hne2
    · exact ⟨hp, h3.2⟩
  refine ⟨fun mesh config h => (main_calls env prog inputFilePath rest fs).1 _ h,
    fun mesh config h => (main_calls env prog inputFilePath rest fs).1 _ h,
    fun mesh p h => ?_,
    fun mesh p h => (hwrite env mesh p h).2, fun code h => ?_,
    fun other mesh p mesh1 p1 h h1 => ?_⟩
  · obtain ⟨-, h1 | h2 | h3⟩ := (main_calls env prog inputFilePath rest fs).1 _ h
    · exact absurd h1.1 hne3
    · exact h2.2
    · exact absurd h3.1.symm hne2
  · obtain ⟨initialMesh, smartLaplaceResult, getmeResult, hi, hl, hg, ht⟩ :=
      (main_calls env prog inputFilePath rest fs).2 code h
    refine ⟨initialMesh, smartLaplaceResult, getmeResult, hi, hl, hg, ht, ?_, ?_, ?_, ?_⟩
    · rw [ht]
      simp [completeTrace]
    · rw [ht]
      simp [completeTrace]
    · rw [ht]
      simp [completeTrace]
    · rw [ht]
      simp [completeTrace]
  · obtain ⟨hp, m, r, hm, hr, rfl⟩ := hwrite env mesh p h
    obtain ⟨hp1, m1, r1, hm1, hr1, rfl⟩ := hwrite _ mesh1 p1 h1
    have hsame : initialMeshResult { env with smartLaplace := other } inputFilePath fs
        = initialMeshResult env inputFilePath fs := rfl
    rw [hsame, hm] at hm1
    cases hm1
    have hr1' : env.getme m ⟨m.getMaximalNumberOfPolygonNodes⟩ = .ok r1 := hr1
    rw [hr] at hr1'
    cases hr1'
    exact ⟨rfl, hp.trans hp1.symm⟩

/-- C10: every call of `writeResultMesh` in a run of the driver receives the
path "res/" followed by `inputBaseName`; that name is the file name of the
input when "_initial" does not occur in it, and otherwise the part of the file
name before the first occurrence of "_initial" followed by the extension of the
input; it depends on the input path through its file name only; and a run that
returns has called `writeResultMesh` with that one path under the names
"initial", "smart_laplace" and "getme", in this order. -/
theorem main_output_base_path {σ : Type} (env : Env σ) (prog inputFilePath : CppString)
    (rest : List CppString) (fs : σ) :
    (∀ mesh p meshName,
      Event.writeResultMesh mesh p meshName
          ∈ (main env (prog :: inputFilePath :: rest) (initialWorld fs)).2.trace →
        p = "res/".toList ++ inputBaseName inputFilePath) ∧
    (¬ "_initial".toList <:+: filename inputFilePath →
      inputBaseName inputFilePath = filename inputFilePath) ∧
    (∀ pre post, filename inputFilePath = pre ++ "_initial".toList ++ post →
      (∀ j, j < pre.length → ¬ "_initial".toList <+: (filename inputFilePath).drop j) →
      inputBaseName inputFilePath = pre ++ extension inputFilePath) ∧
    (∀ otherPath, filename otherPath = filename inputFilePath →
      inputBaseName otherPath = inputBaseName inputFilePath) ∧
    (∀ code, (main env (prog :: inputFilePath :: rest) (initialWorld fs)).1 = .ok code →
      writeResultMeshCalls (main env (prog :: inputFilePath :: rest) (initialWorld fs)).2.trace
        = [("res/".toList ++ inputBaseName inputFilePath, "initial".toList),
           ("res/".toList ++ inputBaseName inputFilePath, "smart_laplace".toList),
           ("res/".toList ++ inputBaseName inputFilePath, "getme".toList)]) := by
  have hout : ouputFilePath inputFilePath = "res/".toList ++ inputBaseName inputFilePath := rfl
  refine ⟨fun mesh p meshName h => ?_, fun h => ?_, fun pre post hs hfirst => ?_,
    fun other h => ?_, fun code h => ?_⟩
  · rw [← hout]
    exact ((main_calls env prog inputFilePath rest fs).1 _ h).1
  · unfold inputBaseName
    dsimp only
    rw [(find_eq_none_iff _ _).mpr h]
  · have hpre : "_initial".toList <+: (filename inputFilePath).drop pre.length := by
      rw [hs, List.append_assoc, List.drop_left]
      exact List.prefix_append _ _
    unfold inputBaseName
    dsimp only
    rw [find_eq_of_first hpre hfirst]
    simp only [erase]
    rw [hs, List.append_assoc, List.take_left]
  · unfold inputBaseName extension
    dsimp only
    rw [h]
  · obtain ⟨initialMesh, smartLaplaceResult, getmeResult, -, -, -, ht⟩ :=
      (main_calls env prog inputFilePath rest fs).2 code h
    rw [ht, writeResultMeshCalls_completeTrace, hout]

/-- C5, on the run of the driver on `in/bunny_initial.obj` in an environment
whose engines return meshes different from their input and from each other:
the run returns; its calls are, in order, the read of the initial mesh, smart
Laplace on the initial mesh and GETMe on the initial mesh, each followed by the
write of its result; GETMe was not called on the smart Laplace result. -/
theorem main_getme_on_initial_mesh_witness :
    (main movingEnv ["getme".toList, "in/bunny_initial.obj".toList]
      (initialWorld sampleFiles)).1 = .ok 0 ∧
    (main movingEnv ["getme".toList, "in/bunny_initial.obj".toList]
      (initialWorld sampleFiles)).2.trace
      = [Event.create_directory "res".toList,
         Event.readObjFile "in/bunny_initial.obj".toList,
         Event.writeResultMesh sampleMesh "res/bunny.obj".toList "initial".toList,
         Event.writeObjFile sampleMesh "res/bunny_initial.obj".toList,
         Event.smartLaplace sampleMesh {},
         Event.writeResultMesh laplaceMesh "res/bunny.obj".toList "smart_laplace".toList,
         Event.writeObjFile laplaceMesh "res/bunny_smart_laplace.obj".toList,
         Event.getme sampleMesh ⟨3⟩,
         Event.writeResultMesh getmeMesh "res/bunny.obj".toList "getme".toList,
         Event.writeObjFile getmeMesh "res/bunny_getme.obj".toList] ∧
    laplaceMesh ≠ sampleMesh ∧
    initialMeshResult movingEnv "in/bunny_initial.obj".toList sampleFiles = .ok sampleMesh ∧
    (initialMeshResult movingEnv "in/bunny_initial.obj".toList sampleFiles = .ok sampleMesh
      ∧ (⟨3⟩ : GetmeConfig) = ⟨sampleMesh.getMaximalNumberOfPolygonNodes⟩) ∧
    Event.getme laplaceMesh ⟨3⟩
      ∉ (main movingEnv ["getme".toList, "in/bunny_initial.obj".toList]
          (initialWorld sampleFiles)).2.trace ∧
    (∃ initialMesh result,
      initialMeshResult movingEnv "in/bunny_initial.obj".toList sampleFiles = .ok initialMesh
        ∧ movingEnv.getme initialMesh ⟨initialMesh.getMaximalNumberOfPolygonNodes⟩
            = .ok result
        ∧ getmeMesh = result.mesh) := by
  have htrace : (main movingEnv ["getme".toList, "in/bunny_initial.obj".toList]
      (initialWorld sampleFiles)).2.trace
      = [Event.create_directory "res".toList,
         Event.readObjFile "in/bunny_initial.obj".toList,
         Event.writeResultMesh sampleMesh "res/bunny.obj".toList "initial".toList,
         Event.writeObjFile sampleMesh "res/bunny_initial.obj".toList,
         Event.smartLaplace sampleMesh {},
         Event.writeResultMesh laplaceMesh "res/bunny.obj".toList "smart_laplace".toList,
         Event.writeObjFile laplaceMesh "res/bunny_smart_laplace.obj".toList,
         Event.getme sampleMesh ⟨3⟩,
         Event.writeResultMesh getmeMesh "res/bunny.obj".toList "getme".toList,
         Event.writeObjFile getmeMesh "res/bunny_getme.obj".toList] := rfl
  have hdiff : laplaceMesh ≠ sampleMesh := by decide
  have hall := main_getme_on_initial_mesh movingEnv "getme".toList
    "in/bunny_initial.obj".toList [] sampleFiles
  have hread : initialMeshResult movingEnv "in/bunny_initial.obj".toList sampleFiles
      = .ok sampleMesh := hall.1 sampleMesh {} (by rw [htrace]; simp)
  refine ⟨rfl, htrace, hdiff, hread, hall.2.1 sampleMesh ⟨3⟩ (by rw [htrace]; simp), ?_,
    hall.2.2.2.1 getmeMesh "res/bunny.obj".toList (by rw [htrace]; simp)⟩
  intro hmem
  have h := (hall.2.1 laplaceMesh ⟨3⟩ hmem).1
  rw [hread] at h
  exact hdiff (Except.ok.inj h).symm

/-- C10, on the run of the driver on `in/bunny_initial.obj` in the sample
environment: the three results go to the base path `res/bunny.obj`. -/
theorem main_output_base_path_witness :
    "res/".toList ++ inputBaseName "in/bunny_initial.obj".toList = "res/bunny.obj".toList ∧
    inputBaseName "in/bunny_initial.obj".toList
      = "bunny".toList ++ extension "in/bunny_initial.obj".toList ∧
    inputBaseName "in/bunny.obj".toList = filename "in/bunny.obj".toList ∧
    inputBaseName "elsewhere/bunny_initial.obj".toList
      = inputBaseName "in/bunny_initial.obj".toList ∧
    writeResultMeshCalls (main sampleEnv ["getme".toList, "in/bunny_initial.obj".toList]
        (initialWorld sampleFiles)).2.trace
      = [("res/".toList ++ inputBaseName "in/bunny_initial.obj".toList, "initial".toList),
         ("res/".toList ++ inputBaseName "in/bunny_initial.obj".toList, "smart_laplace".toList),
         ("res/".toList ++ inputBaseName "in/bunny_initial.obj".toList, "getme".toList)] :=
  ⟨by decide,
   (main_output_base_path sampleEnv "getme".toList "in/bunny_initial.obj".toList []
      sampleFiles).2.2.1 "bunny".toList ".obj".toList (by decide) (by decide),
   (main_output_base_path sampleEnv "getme".toList "in/bunny.obj".toList []
      sampleFiles).2.1 (by decide),
   (main_output_base_path sampleEnv "getme".toList "in/bunny_initial.obj".toList []
      sampleFiles).2.2.2.1 "elsewhere/bunny_initial.obj".toList (by decide),
   (main_output_base_path sampleEnv "getme".toList "in/bunny_initial.obj".toList []
      sampleFiles).2.2.2.2 0 rfl⟩

/-! ## The round trip through the dispatchers -/

theorem roundTrip_sampleEnv : RoundTrip sampleEnv := by
  refine ⟨fun mesh p fs _ => ⟨mesh, ?_, rfl, rfl⟩, fun mesh p fs _ => ⟨mesh, ?_, rfl, rfl⟩⟩
  · simp [sampleEnv, readStored]
  · simp [sampleEnv, readStored]

/-- The output path of `writeResultMesh` keeps the extension `.mesh` or `.obj`
of the path it was given, unless the mesh name ends in `/`. -/
theorem extension_resultMeshPath (p meshName : CppString)
    (hext : extension p = ".mesh".toList ∨ extension p = ".obj".toList)
    (hname : meshName.getLast? ≠ some '/') :
    extension (resultMeshPath p meshName) = extension p := by
  have key : ∀ (r : CppString), extension p = '.' :: r → '.' ∉ r → '/' ∉ r → r ≠ [] →
      extension (resultMeshPath p meshName) = extension p := by
    intro r hr hdot hslash hne
    unfold resultMeshPath
    rw [hr]
    rcases List.eq_nil_or_concat meshName with rfl | ⟨init, c, rfl⟩
    · have := extension_append (erase p ((find p ('.' :: r)).getD 0)) r '_' (by decide)
        hdot hslash hne
      simpa using this
    · have hc : c ≠ '/' := by
        intro h
        apply hname
        simp [h]
      have := extension_append (erase p ((find p ('.' :: r)).getD 0) ++ "_".toList ++ init) r c
        hc hdot hslash hne
      simpa [List.append_assoc] using this
  rcases hext with h | h
  · exact key "mesh".toList h (by decide) (by decide) (by decide)
  · exact key "obj".toList h (by decide) (by decide) (by decide)

/-- C4, as stated, fails at the path `a.obj` and the mesh name `x/`: the mesh
is written by the `.obj` writer to `a_x/.obj`, whose extension is empty, so
`readInitialMesh` on the written file raises "Unexpected file extension.". -/
theorem roundTrip_fails_on_name_ending_in_slash :
    extension "a.obj".toList = ".obj".toList ∧
    (writeResultMesh sampleEnv sampleMesh "a.obj".toList "x/".toList (initialWorld [])).1
      = .ok () ∧
    (writeResultMesh sampleEnv sampleMesh "a.obj".toList "x/".toList (initialWorld [])).2.trace
      = [Event.writeResultMesh sampleMesh "a.obj".toList "x/".toList,
         Event.writeObjFile sampleMesh "a_x/.obj".toList] ∧
    (writeResultMesh sampleEnv sampleMesh "a.obj".toList "x/".toList (initialWorld [])).2.fs
      = [⟨"a_x/.obj".toList, .obj, sampleMesh⟩] ∧
    (readInitialMesh sampleEnv "a_x/.obj".toList
      (writeResultMesh sampleEnv sampleMesh "a.obj".toList "x/".toList (initialWorld [])).2).1
      = .error "Unexpected file extension.".toList := by
  refine ⟨by decide, rfl, rfl, rfl, rfl⟩

/-- C4, amended: when the format readers and writers round-trip, the path has
extension `.mesh` or `.obj`, the mesh name does not end in `/` and
`writeResultMesh` raised nothing, then `readInitialMesh` on the path written
calls the reader of the format of the writer that was called, on that same
path, and returns a mesh with the node positions and the polygons of the mesh
written. -/
theorem writeResultMesh_readInitialMesh_roundTrip {σ : Type} (env : Env σ)
    (hround : RoundTrip env) (mesh : PolygonalMesh) (p meshName : CppString) (w : World σ)
    (hext : extension p = ".mesh".toList ∨ extension p = ".obj".toList)
    (hname : meshName.getLast? ≠ some '/')
    (hwritten : (writeResultMesh env mesh p meshName w).1 = .ok ()) :
    (∃ readBack,
      (readInitialMesh env (resultMeshPath p meshName)
        (writeResultMesh env mesh p meshName w).2).1 = .ok readBack
      ∧ readBack.nodes = mesh.nodes ∧ readBack.polygons = mesh.polygons) ∧
    (extension p = ".mesh".toList →
      (readInitialMesh env (resultMeshPath p meshName)
        (writeResultMesh env mesh p meshName w).2).2.trace
        = w.trace ++ [Event.writeResultMesh mesh p meshName,
            Event.writeMeshFile mesh (resultMeshPath p meshName),
            Event.readMeshFile (resultMeshPath p meshName)]) ∧
    (extension p = ".obj".toList →
      (readInitialMesh env (resultMeshPath p meshName)
        (writeResultMesh env mesh p meshName w).2).2.trace
        = w.trace ++ [Event.writeResultMesh mesh p meshName,
            Event.writeObjFile mesh (resultMeshPath p meshName),
            Event.readObjFile (resultMeshPath p meshName)]) := by
  have hsame := extension_resultMeshPath p meshName hext hname
  have hne : ".obj".toList ≠ ".mesh".toList := by decide
  rw [writeResultMesh_apply] at hwritten ⊢
  rw [readInitialMesh_apply, hsame]
  rcases hext with h | h
  · rw [if_pos h] at hwritten ⊢
    rw [if_pos h]
    refine ⟨hround.1 mesh _ w.fs hwritten, fun _ => by simp, fun h1 => ?_⟩
    rw [h] at h1
    exact absurd h1.symm hne
  · have h1 : extension p ≠ ".mesh".toList := by rw [h]; exact hne
    rw [if_neg h1, if_pos h] at hwritten ⊢
    rw [if_neg h1, if_pos h]
    exact ⟨hround.2 mesh _ w.fs hwritten, fun h2 => absurd h2 h1, fun _ => by simp⟩

/-- C4, amended, at the path `res/bunny.obj` and the mesh name `getme` in the
sample environment. -/
theorem writeResultMesh_readInitialMesh_roundTrip_witness :
    (∃ readBack,
      (readInitialMesh sampleEnv (resultMeshPath "res/bunny.obj".toList "getme".toList)
        (writeResultMesh sampleEnv sampleMesh "res/bunny.obj".toList "getme".toList
          (initialWorld [])).2).1 = .ok readBack
      ∧ readBack.nodes = sampleMesh.nodes ∧ readBack.polygons = sampleMesh.polygons) ∧
    resultMeshPath "res/bunny.obj".toList "getme".toList = "res/bunny_getme.obj".toList :=
  ⟨(writeResultMesh_readInitialMesh_roundTrip sampleEnv roundTrip_sampleEnv sampleMesh
      "res/bunny.obj".toList "getme".toList (initialWorld []) (Or.inr (by decide))
      (by decide) rfl).1,
   by decide⟩

/-- When the first occurrence of the extension in the path is the extension
itself, the output path of `writeResultMesh` is the path without its extension,
then `_`, the mesh name and the extension. -/
theorem resultMeshPath_of_first_occurrence_last (p meshName : CppString)
    (h : find p (extension p) = some (p.length - (extension p).length)) :
    resultMeshPath p meshName
      = p.take (p.length - (extension p).length) ++ "_".toList ++ meshName ++ extension p := by
  unfold resultMeshPath erase
  rw [h]
  rfl

end Getme
